import Mathlib

/-!
Shallow embedding of `pyxsim/source_models.py` (thermal, power-law and line
X-ray source models).  Numeric values are modelled by `ℚ`; the numpy
pseudo-random generator, the spectral-table collaborator and the
transcendental float functions (`np.log10`, `10**`, `**`, `np.log`) are
modelled as explicit oracle parameters whose contracts appear as hypotheses
of the theorems.
-/

namespace PyXSIM

/-- Model of the per-instance numpy `RandomState`: every draw consumes and
returns an explicit generator state `σ`.  `poisson` models
`prng.poisson(lam=·)` for one entry, `uniform` one draw of
`prng.uniform()`, `normal` one draw of `prng.normal(loc=0.0, scale=·)`,
and `choice` one draw of `prng.choice(n, p=·)`. -/
structure RandomSource (σ : Type) where
  poisson : σ → ℚ → ℕ × σ
  uniform : σ → ℚ × σ
  normal : σ → ℚ → ℚ × σ
  choice : σ → List ℚ → ℕ × σ

/-- Model of the float transcendental functions used by the source
(`np.log10`, `10**x`, `a**b`, `np.log`). -/
structure FloatOps where
  log10 : ℚ → ℚ
  exp10 : ℚ → ℚ
  rpow : ℚ → ℚ → ℚ
  ln : ℚ → ℚ

/-- Sequential vectorized draw: numpy draws a vector entry by entry from
the sequential generator state. -/
def drawList {σ α β : Type} (f : σ → α → β × σ) (s : σ) : List α → List β × σ
  | [] => ([], s)
  | x :: rest =>
    let p := f s x
    let q := drawList f p.2 rest
    (p.1 :: q.1, q.2)

theorem drawList_length {σ α β : Type} (f : σ → α → β × σ) (s : σ) (xs : List α) :
    (drawList f s xs).1.length = xs.length := by
  induction xs generalizing s with
  | nil => rfl
  | cons x rest ih => simp [drawList, ih]

/-- `n` successive draws from a single-value sampler. -/
def draw_n {σ β : Type} (f : σ → β × σ) (s : σ) (n : ℕ) : List β × σ :=
  drawList (fun s _ => f s) s (List.range n)

theorem draw_n_length {σ β : Type} (f : σ → β × σ) (s : σ) (n : ℕ) :
    (draw_n f s n).1.length = n := by
  simp [draw_n, drawList_length]

/-- `xs[i:j]` on a flat array. -/
def slice {α : Type} (xs : List α) (i j : ℕ) : List α :=
  (xs.drop i).take (j - i)

/-- Boolean fancy indexing `xs[mask]`. -/
def maskList {α : Type} (mask : List Bool) (xs : List α) : List α :=
  (mask.zip xs).filterMap (fun p => if p.1 then some p.2 else none)

/-- Slice assignment `l[i:i+len(es)] = es`. -/
def setSlice {α : Type} (l : List α) (i : ℕ) (es : List α) : List α :=
  l.take i ++ es ++ l.drop (i + es.length)

/-- Fancy-indexed assignment `ret[pos] = vals`. -/
def scatter (ret : List ℚ) (pos : List ℕ) (vals : List ℚ) : List ℚ :=
  (pos.zip vals).foldl (fun r pv => r.set pv.1 pv.2) ret

/-- `np.where(mask)[0]`: the indices of the `true` entries. -/
def trueIdxs (mask : List Bool) : List ℕ :=
  ((List.range mask.length).zip mask).filterMap
    (fun p => if p.2 then some p.1 else none)

/-- Cumulative sums starting from `a`. -/
def cumsumFrom (a : ℚ) : List ℚ → List ℚ
  | [] => []
  | x :: rest => (a + x) :: cumsumFrom (a + x) rest

/-- `np.cumsum`. -/
def cumsum (xs : List ℚ) : List ℚ := cumsumFrom 0 xs

/-- Fuel-driven body of the capacity-doubling loop (structural so that
concrete witnesses evaluate in the kernel); `growCap` supplies enough
fuel, and `growCap_eq` recovers the loop equation. -/
def growCapGo : ℕ → ℕ → ℕ → ℕ
  | 0, cap, _ => cap
  | fuel + 1, cap, need =>
    if cap = 0 ∨ need ≤ cap then cap else growCapGo fuel (2 * cap) need

/-- The capacity-doubling loop
`while ei+cn > num_photons_max: num_photons_max *= 2`
(`cap` is the current capacity, `need` the needed size).  The `cap = 0`
guard only rules out the non-terminating degenerate loop; the source
always starts from capacity 10^7 > 0. -/
def growCap (cap need : ℕ) : ℕ := growCapGo need cap need

theorem growCapGo_congr : ∀ f1 f2 cap need : ℕ, 0 < cap →
    need ≤ cap + f1 → need ≤ cap + f2 →
    growCapGo f1 cap need = growCapGo f2 cap need := by
  intro f1
  induction f1 with
  | zero =>
    intro f2 cap need hc h1 h2
    have hle : need ≤ cap := by omega
    cases f2 with
    | zero => rfl
    | succ h => simp [growCapGo, hle]
  | succ g ih =>
    intro f2 cap need hc h1 h2
    by_cases hcond : cap = 0 ∨ need ≤ cap
    · have hle : need ≤ cap := by omega
      cases f2 with
      | zero => simp [growCapGo, hle]
      | succ h => simp [growCapGo, hle]
    · push_neg at hcond
      cases f2 with
      | zero => omega
      | succ h =>
        have hc1 : ¬(cap = 0 ∨ need ≤ cap) := by omega
        rw [growCapGo, growCapGo, if_neg hc1, if_neg hc1]
        exact ih h (2 * cap) need (by omega) (by omega) (by omega)

/-- The loop equation of `growCap`. -/
theorem growCap_eq (cap need : ℕ) :
    growCap cap need =
      if cap = 0 ∨ need ≤ cap then cap else growCap (2 * cap) need := by
  by_cases h : cap = 0 ∨ need ≤ cap
  · rw [if_pos h, growCap]
    cases need with
    | zero => rfl
    | succ k =>
      have hle : cap = 0 ∨ k + 1 ≤ cap := h
      simp [growCapGo, hle]
  · push_neg at h
    rw [if_neg (by omega), growCap, growCap]
    have hne : 0 < need := by omega
    obtain ⟨k, hk⟩ : ∃ k, need = k + 1 := ⟨need - 1, by omega⟩
    rw [hk]
    rw [show growCapGo (k + 1) cap (k + 1) =
        growCapGo k (2 * cap) (k + 1) by
      rw [growCapGo, if_neg (by omega)]]
    exact growCapGo_congr k (k + 1) (2 * cap) (k + 1) (by omega) (by omega)
      (by omega)

/-- Model of `np.interp(x, xp, fp)` for `xp` ascending: clamp outside the
range of `xp`, otherwise linear interpolation on the bracketing interval
(numpy locates the interval by binary search on the sorted `xp`; the
bracket index is the last `j` with `xp[j] <= x`). -/
def interp (x : ℚ) (xp fp : List ℚ) : ℚ :=
  if xp.length = 0 then 0
  else if x < xp.getD 0 0 then fp.getD 0 0
  else if xp.getD (xp.length - 1) 0 ≤ x then fp.getD (fp.length - 1) 0
  else
    let j := xp.findIdx (fun a => decide (x < a)) - 1
    let x1 := xp.getD j 0
    let x2 := xp.getD (j + 1) 0
    let f1 := fp.getD j 0
    let f2 := fp.getD (j + 1) 0
    f1 + (x - x1) * (f2 - f1) / (x2 - x1)

/-- Fuel-driven body of the batch enumeration (structural so that
concrete witnesses evaluate in the kernel); `chunkedRanges` supplies
enough fuel, and `chunkedRanges_eq` recovers the loop equation. -/
def chunkedRangesGo : ℕ → ℕ → ℕ → List (ℕ × ℕ)
  | 0, _, _ => []
  | fuel + 1, i, n =>
    if i < n then (i, min (i + 100) n) :: chunkedRangesGo fuel (min (i + 100) n) n
    else []

/-- `more_itertools.chunked(range(n), 100)` reduced to the per-batch
`(ck[0], ck[-1]+1)` bounds actually used by the source. -/
def chunkedRanges (i n : ℕ) : List (ℕ × ℕ) := chunkedRangesGo (n - i) i n

theorem chunkedRangesGo_congr : ∀ f1 f2 i n : ℕ, n - i ≤ f1 → n - i ≤ f2 →
    chunkedRangesGo f1 i n = chunkedRangesGo f2 i n := by
  intro f1
  induction f1 with
  | zero =>
    intro f2 i n h1 h2
    have : ¬ i < n := by omega
    cases f2 with
    | zero => rfl
    | succ h => simp [chunkedRangesGo, this]
  | succ g ih =>
    intro f2 i n h1 h2
    by_cases hin : i < n
    · cases f2 with
      | zero => omega
      | succ h =>
        rw [chunkedRangesGo, chunkedRangesGo, if_pos hin, if_pos hin]
        congr 1
        exact ih h (min (i + 100) n) n (by omega) (by omega)
    · cases f2 with
      | zero => simp [chunkedRangesGo, hin]
      | succ h => simp [chunkedRangesGo, hin]

/-- The loop equation of `chunkedRanges`. -/
theorem chunkedRanges_eq (i n : ℕ) :
    chunkedRanges i n =
      if i < n then
        (i, min (i + 100) n) :: chunkedRanges (min (i + 100) n) n
      else [] := by
  by_cases h : i < n
  · rw [if_pos h, chunkedRanges, chunkedRanges]
    obtain ⟨k, hk⟩ : ∃ k, n - i = k + 1 := ⟨n - i - 1, by omega⟩
    rw [hk, chunkedRangesGo, if_pos h]
    congr 1
    exact chunkedRangesGo_congr k (n - min (i + 100) n) (min (i + 100) n) n
      (by omega) (by omega)
  · rw [if_neg h, chunkedRanges]
    have : n - i = 0 := by omega
    rw [this]
    rfl

/-- Batch-by-bin intermediate arrays. -/
abbrev Mat := List (List ℚ)

/-- `np.zeros((r, c))`. -/
def zeroM (r c : ℕ) : Mat := List.replicate r (List.replicate c 0)

/-- Elementwise matrix addition. -/
def madd (A B : Mat) : Mat := List.zipWith (fun ra rb => List.zipWith (· + ·) ra rb) A B

/-- `z[:,np.newaxis] * A`: scale each row of `A` by the matching entry of `z`. -/
def scaleRows (z : List ℚ) (A : Mat) : Mat :=
  List.zipWith (fun zi row => row.map (fun x => zi * x)) z A

/-- The four `process_data` modes (string-typed in the source). -/
inductive Mode
  | photons
  | photon_field
  | energy_field
  | spectrum
deriving DecidableEq

/-! ## PowerLawSourceModel -/

/-- Post-`setup_model` state of `PowerLawSourceModel`: the parsed energies
(`keV` values), the power-law index (`some` = constant float, `none` =
field reference looked up in the chunk), and the setup products. -/
structure PowerLawSourceModelState where
  e0 : ℚ
  emin : ℚ
  emax : ℚ
  alpha : Option ℚ
  spectral_norm : ℚ
  scale_factor : ℚ

/-- One chunk as seen by `PowerLawSourceModel.process_data`: the emission
field and (when the index is a field reference) the per-sample index. -/
structure PLChunk where
  emission : List ℚ
  alpha_field : List ℚ

/-- Result of `PowerLawSourceModel.process_data`: the `photons` 4-tuple
(whose third component in this engine is the `active_cells` *boolean
mask*, not an index list) or a flat array for the other modes. -/
inductive PLResult
  | photons (ncells : ℕ) (counts : List ℕ) (active : List Bool) (energies : List ℚ)
  | arr (vals : List ℚ)
deriving DecidableEq

namespace PowerLawSourceModel

/-- `alpha = self.alpha*np.ones(num_cells)` or `chunk[self.alpha].v`. -/
def alphas (m : PowerLawSourceModelState) (c : PLChunk) : List ℚ :=
  match m.alpha with
  | some a => List.replicate c.emission.length a
  | none => c.alpha_field

/-- Per-sample `norm_fac` of the photons/photon_field modes after lines
812-814: the general `emax**(1-α) - emin**(1-α)` entry, overwritten by
`log(emax/emin)` exactly where `alpha == 1`, then multiplied by
`e0**alpha`. -/
def norm_fac (ops : FloatOps) (m : PowerLawSourceModelState) (a : ℚ) : ℚ :=
  (if a = 1 then ops.ln (m.emax / m.emin)
   else ops.rpow m.emax (1 - a) - ops.rpow m.emin (1 - a)) * ops.rpow m.e0 a

/-- Per-sample `norm` (line 815-816): `norm_fac` times the emission field,
divided by `1-alpha` exactly where `alpha != 1`. -/
def norm (ops : FloatOps) (m : PowerLawSourceModelState) (a em : ℚ) : ℚ :=
  if a = 1 then norm_fac ops m a * em else norm_fac ops m a * em / (1 - a)

/-- The Poisson means of the photons mode (line 820):
`norm * spectral_norm * scale_factor`. -/
def pl_lam (ops : FloatOps) (m : PowerLawSourceModelState) (c : PLChunk) : List ℚ :=
  (List.zipWith (fun a em => norm ops m a em) (alphas m c) c.emission).map
    (fun x => x * m.spectral_norm * m.scale_factor)

/-- Sampled energies of one cell (lines 831-837), before the
`scale_factor` rescaling: the logarithmic inverse CDF where
`alpha[i] == 1`, the general power-law inverse CDF otherwise. -/
def pl_cell_e (ops : FloatOps) (m : PowerLawSourceModelState) (a : ℚ) (us : List ℚ) : List ℚ :=
  if a = 1 then
    us.map (fun u => m.emin * ops.rpow (m.emax / m.emin) u)
  else
    us.map (fun u => ops.rpow (ops.rpow m.emin (1 - a) + u * norm_fac ops m a) (1 / (1 - a)))

/-- Per-sample energy-flux value of the energy_field mode (lines 849-854):
`(emax**(2-α) - emin**(2-α)) * e0**α / (2-α)` times the emission field,
the same formula for every index value — the source has no analog of the
`alpha == 1` special case here, so at `α = 2` the divisor `2-α` is zero
(numpy emits an inf/nan there; the `ℚ` embedding collapses `x/0` to `0`). -/
def energy_field_sample (ops : FloatOps) (m : PowerLawSourceModelState) (a em : ℚ) : ℚ :=
  (ops.rpow m.emax (2 - a) - ops.rpow m.emin (2 - a)) * (ops.rpow m.e0 a / (2 - a)) * em

/-- The photons-mode per-cell energy loop (lines 826-838): for each cell
with a positive count draw that many uniforms, transform them, rescale by
`scale_factor` and write them at `energies[start_e:end_e]`. -/
def pl_energy_loop {σ : Type} (ops : FloatOps) (m : PowerLawSourceModelState)
    (rs : RandomSource σ) (cells : List (ℚ × ℕ)) (st : List ℚ × ℕ × σ) : List ℚ × ℕ × σ :=
  cells.foldl
    (fun st cell =>
      if cell.2 = 0 then st
      else
        let p := draw_n rs.uniform st.2.2 cell.2
        let e := (pl_cell_e ops m cell.1 p.1).map (fun x => x * m.scale_factor)
        (setSlice st.1 st.2.1 e, st.2.1 + cell.2, p.2))
    st

/-- `PowerLawSourceModel.process_data` (lines 801-858).  `emid` is the
`emid=` keyword argument used only by the spectrum mode.  The spectrum
mode result is `emission.sum() * (emid/e0)**(-alpha)` under numpy
broadcasting; a broadcast shape mismatch (raised by numpy) is modelled as
`none`. -/
def process_data {σ : Type} (ops : FloatOps) (m : PowerLawSourceModelState)
    (rs : RandomSource σ) (mode : Mode) (c : PLChunk) (emid : List ℚ) (s : σ) :
    Option PLResult × σ :=
  let alpha := alphas m c
  match mode with
  | .photons =>
    let lam := pl_lam ops m c
    let pr := drawList (fun s l => rs.poisson s l) s lam
    let number_of_photons := pr.1
    let energies0 : List ℚ := List.replicate number_of_photons.sum 0
    let res := pl_energy_loop ops m rs (alpha.zip number_of_photons) (energies0, 0, pr.2)
    let active_cells := number_of_photons.map (fun n => decide (0 < n))
    let ncells := active_cells.count true
    (some (.photons ncells (number_of_photons.filter (fun n => decide (0 < n)))
      active_cells (res.1.take res.2.1)), res.2.2)
  | .photon_field =>
    (some (.arr (List.zipWith (fun a em => norm ops m a em) alpha c.emission)), s)
  | .energy_field =>
    (some (.arr (List.zipWith (fun a em => energy_field_sample ops m a em)
      alpha c.emission)), s)
  | .spectrum =>
    let tot := c.emission.sum
    if alpha.length = emid.length then
      (some (.arr (List.zipWith (fun e a => tot * ops.rpow (e / m.e0) (-a)) emid alpha)), s)
    else if alpha.length = 1 then
      (some (.arr (emid.map (fun e => tot * ops.rpow (e / m.e0) (-(alpha.getD 0 0))))), s)
    else if emid.length = 1 then
      (some (.arr (alpha.map (fun a => tot * ops.rpow (emid.getD 0 0 / m.e0) (-a)))), s)
    else (none, s)

end PowerLawSourceModel

/-! ## LineSourceModel -/

/-- The parsed `sigma` argument of `LineSourceModel`: absent, a constant
broadening already converted to `keV`, or a field reference. -/
inductive SigmaSpec
  | noSigma
  | constSigma (v : ℚ)
  | fieldSigma
deriving DecidableEq

/-- Post-`setup_model` state of `LineSourceModel`.  `gx`/`gcdf` model the
module-level standard-normal CDF table (`np.linspace(-6,6,2400)`,
`norm.cdf(gx)`); `clight` the imported speed of light used to convert
velocity broadening to `keV`. -/
structure LineSourceModelState where
  e0 : ℚ
  sigma : SigmaSpec
  spectral_norm : ℚ
  scale_factor : ℚ
  clight : ℚ
  gx : List ℚ
  gcdf : List ℚ

/-- One chunk as seen by `LineSourceModel.process_data`. -/
structure LineChunk where
  emission : List ℚ
  sigma_field : List ℚ

namespace LineSourceModel

/-- The Poisson means of the photons mode (line 938):
`F = emission * spectral_norm * scale_factor`. -/
def line_lam (m : LineSourceModelState) (c : LineChunk) : List ℚ :=
  c.emission.map (fun em => em * m.spectral_norm * m.scale_factor)

/-- Per-sample broadening in `keV` from the sigma field (line 948):
`chunk[sigma] * e0 / clight`. -/
def sigma_keV (m : LineSourceModelState) (c : LineChunk) : List ℚ :=
  c.sigma_field.map (fun v => v * m.e0 / m.clight)

/-- The per-cell broadening loop of the field-sigma photons branch
(lines 949-956): add normal draws with the cell's sigma to that cell's
slice of the energy array. -/
def line_broaden_loop {σ : Type} (rs : RandomSource σ)
    (cells : List (ℚ × ℕ)) (st : List ℚ × ℕ × σ) : List ℚ × ℕ × σ :=
  cells.foldl
    (fun st cell =>
      if cell.2 = 0 then st
      else
        let p := draw_n (fun s => rs.normal s cell.1) st.2.2 cell.2
        let sl := (slice st.1 st.2.1 (st.2.1 + cell.2))
        (setSlice st.1 st.2.1 (List.zipWith (· + ·) sl p.1), st.2.1 + cell.2, p.2))
    st

/-- `np.searchsorted(ebins, e0)` (left convention): the first index whose
entry is `>= e0`, or the length when none is. -/
def searchsorted (ebins : List ℚ) (x : ℚ) : ℕ :=
  ebins.findIdx (fun a => decide (x ≤ a))

/-- Spectrum-mode result (lines 973-993): Gaussian CDF differences via
interpolation against the precomputed table for broadened lines, a single
bin for unbroadened ones. -/
def line_spectrum (m : LineSourceModelState) (c : LineChunk) (ebins : List ℚ) : List ℚ :=
  let de := ebins.map (fun e => e - m.e0)
  match m.sigma with
  | .constSigma v =>
    let rv := de.map (fun d => interp (d / v) m.gx m.gcdf)
    (List.zipWith (· - ·) (rv.drop 1) rv).map (fun d => c.emission.sum * d)
  | .fieldSigma =>
    let sg := sigma_keV m c
    (sg.zip c.emission).foldl
      (fun spec p =>
        let rv := de.map (fun d => interp (d / p.1) m.gx m.gcdf)
        List.zipWith (· + ·) spec
          ((List.zipWith (· - ·) (rv.drop 1) rv).map (fun d => p.2 * d)))
      (List.replicate (ebins.length - 1) 0)
  | .noSigma =>
    (List.replicate (ebins.length - 1) (0 : ℚ)).set
      (searchsorted ebins m.e0) c.emission.sum

/-- `LineSourceModel.process_data` (lines 932-993).  `ebins` is the
`ebins=` keyword argument used only by the spectrum mode.  The photons
result's third component is again the boolean `active_cells` mask. -/
def process_data {σ : Type} (m : LineSourceModelState) (rs : RandomSource σ)
    (mode : Mode) (c : LineChunk) (ebins : List ℚ) (s : σ) : Option PLResult × σ :=
  match mode with
  | .photons =>
    let pr := drawList (fun s l => rs.poisson s l) s (line_lam m c)
    let number_of_photons := pr.1
    let tot := number_of_photons.sum
    let energies0 : List ℚ := List.replicate tot m.e0
    let res :=
      match m.sigma with
      | .constSigma v =>
        let p := draw_n (fun s => rs.normal s v) pr.2 tot
        (List.zipWith (· + ·) energies0 p.1, p.2)
      | .fieldSigma =>
        let r := line_broaden_loop rs ((sigma_keV m c).zip number_of_photons)
          (energies0, 0, pr.2)
        (r.1, r.2.2)
      | .noSigma => (energies0, pr.2)
    let energies := res.1.map (fun e => e * m.scale_factor)
    let active_cells := number_of_photons.map (fun n => decide (0 < n))
    let ncells := active_cells.count true
    (some (.photons ncells (number_of_photons.filter (fun n => decide (0 < n)))
      active_cells energies), res.2)
  | .photon_field => (some (.arr c.emission), s)
  | .energy_field => (some (.arr (c.emission.map (fun em => m.e0 * em))), s)
  | .spectrum => (some (.arr (line_spectrum m c ebins)), s)

end LineSourceModel

/-! ## ThermalSourceModel -/

/-- `np.isclose(de, de[0]).all()` with numpy's default tolerances
(`rtol=1e-5`, `atol=1e-8`): `|a - b| <= atol + rtol*|b|` with `b = de[0]`. -/
def iscloseAll (de : List ℚ) : Bool :=
  match de with
  | [] => true
  | d0 :: _ => de.all (fun d => decide (|d - d0| ≤ 1 / 100000000 + |d0| / 100000))

/-- `setup_model` lines 306-315 for a field-referenced metallicity: the
solar-unit conversion factor or the fatal unit error, as a function of the
field's unit string.  `atable` and `atomic_weights` are the external
abundance data (`soxs.constants`), `metal_elem` the metal element index
list. -/
def Zconvert_of_units (atable atomic_weights : List ℚ) (metal_elem : List ℕ)
    (Z_units : String) : Except String ℚ :=
  if Z_units = "dimensionless" ∨ Z_units = "" ∨ Z_units = "code_metallicity" then
    Except.ok (atomic_weights.getD 1 0 /
      (metal_elem.map (fun e => atable.getD e 0 * atomic_weights.getD e 0)).sum)
  else if Z_units = "Zsun" then Except.ok 1
  else Except.error ("metallicity units not understood: " ++ Z_units)

/-- `setup_model` lines 316-332 for one field-referenced trace-element
abundance with element index `n_elem`: the single-element conversion
factor or the fatal unit error. -/
def mconvert_of_units (atable atomic_weights : List ℚ) (n_elem : ℕ)
    (m_units : String) : Except String ℚ :=
  if m_units = "dimensionless" ∨ m_units = "" ∨ m_units = "code_metallicity" then
    Except.ok (atomic_weights.getD 1 0 /
      (atable.getD n_elem 0 * atomic_weights.getD n_elem 0))
  else if m_units = "Zsun" then Except.ok 1
  else Except.error ("element units not understood: " ++ m_units)

/-- Post-`setup_model` state of `ThermalSourceModel`.  `spectral_model` is
the spectral-table collaborator: for a batch of temperatures (and an
optional density batch) it returns the optional continuum, metal-line and
trace-element-line batch-by-bin arrays.  `Zmet`/`var_elem` entries are
`some` for constant floats and `none` for field references (the field
values then live in the chunk). -/
structure ThermalSourceModelState where
  spectral_model : List ℚ → Option (List ℚ) → Option Mat × Option Mat × Option (List Mat)
  ebins : List ℚ
  de : List ℚ
  emid : List ℚ
  Zmet : Option ℚ
  var_elem : List (Option ℚ)
  Zconvert : ℚ
  mconvert : List ℚ
  max_density : Option ℚ
  kT_min : ℚ
  kT_max : ℚ
  nh_field : Bool
  nH_min : ℚ
  nH_max : ℚ
  h_fraction : Option ℚ
  method : String
  spectral_norm : ℚ
  nei : Bool
  fix_norm : Bool

/-- `self.nchan = self.emid.size`. -/
def ThermalSourceModelState.nchan (m : ThermalSourceModelState) : ℕ := m.emid.length

/-- Lines 345-348: the binning is log iff the bin widths are not all
numerically close to the first one. -/
def ThermalSourceModelState.binscale_is_log (m : ThermalSourceModelState) : Bool :=
  !(iscloseAll m.de)

/-- Line 349: `bin_edges = np.log10(ebins)` for a log binning, else
`ebins`. -/
def ThermalSourceModelState.bin_edges (ops : FloatOps) (m : ThermalSourceModelState) :
    List ℚ :=
  if iscloseAll m.de then m.ebins else m.ebins.map ops.log10

/-- One chunk as seen by `ThermalSourceModel.process_data`: the flattened
field arrays (`temperature` already converted to `keV`), the metallicity /
hydrogen-fraction / trace-element field values for field-referenced
parameters, and the `str(units) == "Zsun"` flags checked at lines 438 and
452. -/
structure ThermalChunk where
  temperature : List ℚ
  density : List ℚ
  emission_measure : List ℚ
  nH : List ℚ
  h_fraction : List ℚ
  metallicity : List ℚ
  metallicity_is_Zsun : Bool
  elem_fields : List (List ℚ)
  elem_is_Zsun : List Bool

/-- Result of `ThermalSourceModel.process_data`: the photons 4-tuple
(`ncells, number_of_photons[active], idxs, energies`) or a flat array for
the other modes (the `None` return of the empty photons cases is the
`none` of the surrounding `Option`). -/
inductive TResult
  | photons (ncells : ℕ) (counts : List ℕ) (idxs : List ℕ) (energies : List ℚ)
  | arr (vals : List ℚ)
deriving DecidableEq

namespace ThermalSourceModel

/-- Lines 389-398: the eligibility mask from the density cut, the
temperature window and (when an nH field is configured) the nH window. -/
def cut_mask (m : ThermalSourceModelState) (c : ThermalChunk) : List Bool :=
  (c.density.zip (c.temperature.zip c.nH)).map (fun p =>
    (match m.max_density with
     | some mx => decide (p.1 < mx)
     | none => true) &&
    (decide (m.kT_min ≤ p.2.1) && decide (p.2.1 ≤ m.kT_max)) &&
    (if m.nh_field then decide (m.nH_min ≤ p.2.2) && decide (p.2.2 ≤ m.nH_max)
     else true))

/-- Lines 418-421: the hydrogen mass fraction over the eligible samples
(a constant broadcast or the masked field). -/
def X_H (m : ThermalSourceModelState) (c : ThermalChunk) (cut : List Bool) : List ℚ :=
  match m.h_fraction with
  | some x => List.replicate (cut.count true) x
  | none => maskList cut c.h_fraction

/-- Lines 414-416 and 423-426: `emission_measure[cut] * spectral_norm`,
divided by `nH` for `_fix_norm` models. -/
def cell_nrm (m : ThermalSourceModelState) (c : ThermalChunk) (cut : List Bool) :
    List ℚ :=
  let base := (maskList cut c.emission_measure).map (fun em => em * m.spectral_norm)
  if m.nh_field && m.fix_norm then
    List.zipWith (fun x nh => x / nh) base (maskList cut c.nH)
  else base

/-- Lines 428-440: the per-eligible-sample metallicity in solar units. -/
def metalZ (m : ThermalSourceModelState) (c : ThermalChunk) (cut : List Bool) :
    List ℚ :=
  if m.nei then List.replicate (cut.count true) 0
  else
    match m.Zmet with
    | some z => List.replicate (cut.count true) z
    | none =>
      let mz := maskList cut c.metallicity
      if c.metallicity_is_Zsun then mz.map (fun v => v * m.Zconvert)
      else List.zipWith (fun v xh => v * (m.Zconvert / xh)) mz (X_H m c cut)

/-- Lines 442-454: the per-element, per-eligible-sample trace-element
abundances in solar units. -/
def elemZ (m : ThermalSourceModelState) (c : ThermalChunk) (cut : List Bool) :
    List (List ℚ) :=
  (List.range m.var_elem.length).map (fun j =>
    match m.var_elem.getD j none with
    | some v => List.replicate (cut.count true) v
    | none =>
      let ez := maskList cut (c.elem_fields.getD j [])
      if c.elem_is_Zsun.getD j true then ez.map (fun v => v * m.mconvert.getD j 0)
      else List.zipWith (fun v xh => v * (m.mconvert.getD j 0 / xh)) ez (X_H m c cut))

/-- Lines 477-486: the composed batch-by-bin spectrum
`tot_spec = zeros + cspec + metalZ·mspec + sum_j elemZ_j·vspec_j`
for one batch of eligible samples. -/
def tot_spec_batch (m : ThermalSourceModelState) (kTs : List ℚ)
    (cnH : Option (List ℚ)) (mzs : List ℚ) (ezs : List (List ℚ)) : Mat :=
  let nck := kTs.length
  let sp := m.spectral_model kTs cnH
  let t0 := zeroM nck m.nchan
  let t1 :=
    match sp.1 with
    | some cs => madd t0 cs
    | none => t0
  let t2 :=
    match sp.2.1 with
    | some ms => madd t1 (scaleRows mzs ms)
    | none => t1
  if 0 < m.var_elem.length then
    match sp.2.2 with
    | some vs =>
      madd t2 ((ezs.zip vs).foldl (fun acc zv => madd acc (scaleRows zv.1 zv.2))
        (zeroM nck m.nchan))
    | none => t2
  else t2

/-- Mutable state of the chunk-processing loop: the per-cell photon
counts, the growable energy buffer with its write position, the
`ret` flux array, the accumulated spectrum and the generator state. -/
structure LoopState (σ : Type) where
  counts : List ℕ
  buf : List ℚ
  written : ℕ
  ret : List ℚ
  spec : List ℚ
  s : σ

/-- Lines 508-514: sample one cell's photon energies, by sorted-uniform
inverse-CDF interpolation or by categorical bin choice. -/
def sample_cell_e {σ : Type} (ops : FloatOps) (m : ThermalSourceModelState)
    (rs : RandomSource σ) (prow cprow : List ℚ) (cn : ℕ) (s : σ) : List ℚ × σ :=
  if m.method = "invert_cdf" then
    let p := draw_n rs.uniform s cn
    let randvec := p.1.insertionSort (fun a b => a ≤ b)
    (randvec.map (fun u => interp u cprow (ThermalSourceModelState.bin_edges ops m)), p.2)
  else if m.method = "accept_reject" then
    let p := draw_n (fun s => rs.choice s prow) s cn
    (p.1.map (fun i => m.emid.getD i 0), p.2)
  else ([], s)

/-- Lines 515-519: double the capacity until the write fits, zero-extend
the buffer to the new capacity, then write the cell's energies at the
write position. -/
def write_cell (buf : List ℚ) (ei : ℕ) (es : List ℚ) : List ℚ :=
  let cap := growCap buf.length (ei + es.length)
  setSlice (buf ++ List.replicate (cap - buf.length) 0) ei es

/-- Lines 504-520: the per-cell energy-sampling loop of one batch.  Every
cell is a `(count, (p_row, cp_row))` triple; zero-count cells are skipped
without consuming generator state. -/
def cell_loop {σ : Type} (ops : FloatOps) (m : ThermalSourceModelState)
    (rs : RandomSource σ) (cells : List (ℕ × List ℚ × List ℚ))
    (st : List ℚ × ℕ × σ) : List ℚ × ℕ × σ :=
  cells.foldl
    (fun st cell =>
      if cell.1 = 0 then st
      else
        let p := sample_cell_e ops m rs cell.2.1 cell.2.2 cell.1 st.2.2
        (write_cell st.1 st.2.1 p.1, st.2.1 + cell.1, p.2))
    st

/-- `np.sum(tot_spec * w[:,np.newaxis], axis=0)`: the `w`-weighted sum of
the rows of `tot_spec`. -/
def weighted_row_sum (nchan : ℕ) (w : List ℚ) (A : Mat) : List ℚ :=
  (w.zip A).foldl
    (fun acc p => List.zipWith (· + ·) acc (p.2.map (fun x => p.1 * x)))
    (List.replicate nchan 0)

/-- The Poisson means of one photons-mode batch (lines 490-491):
`tot_spec.sum(axis=-1) * cell_nrm[ibegin:iend]`. -/
def batch_means (m : ThermalSourceModelState) (kTm : List ℚ)
    (nHm : Option (List ℚ)) (cnrm mz : List ℚ) (ez : List (List ℚ))
    (rg : ℕ × ℕ) : List ℚ :=
  let kTs := slice kTm rg.1 rg.2
  let cnHs := nHm.map (fun v => slice v rg.1 rg.2)
  let mzs := slice mz rg.1 rg.2
  let ezs := ez.map (fun zj => slice zj rg.1 rg.2)
  let tot := tot_spec_batch m kTs cnHs mzs ezs
  List.zipWith (· * ·) (tot.map List.sum) (slice cnrm rg.1 rg.2)

/-- Lines 466-536: processing of one batch `rg = (ibegin, iend)` of the
eligible-sample arrays, branching on the active mode after composing the
batch spectrum. -/
def process_batch {σ : Type} (ops : FloatOps) (m : ThermalSourceModelState)
    (rs : RandomSource σ) (mode : Mode) (kTm : List ℚ) (nHm : Option (List ℚ))
    (cnrm mz : List ℚ) (ez : List (List ℚ)) (idxs : List ℕ)
    (st : LoopState σ) (rg : ℕ × ℕ) : LoopState σ :=
  let kTs := slice kTm rg.1 rg.2
  let cnHs := nHm.map (fun v => slice v rg.1 rg.2)
  let mzs := slice mz rg.1 rg.2
  let ezs := ez.map (fun zj => slice zj rg.1 rg.2)
  let tot := tot_spec_batch m kTs cnHs mzs ezs
  match mode with
  | .photons =>
    let spec_sum := tot.map List.sum
    let cell_norm := List.zipWith (· * ·) spec_sum (slice cnrm rg.1 rg.2)
    let pr := drawList (fun s lam => rs.poisson s lam) st.s cell_norm
    let cell_n := pr.1
    let counts' := setSlice st.counts rg.1 cell_n
    let p := List.zipWith (fun ssum row => row.map (fun x => 1 / ssum * x)) spec_sum tot
    let cp := p.map (fun row => 0 :: cumsum row)
    let res := cell_loop ops m rs (cell_n.zip (p.zip cp)) (st.buf, st.written, pr.2)
    { st with counts := counts', buf := res.1, written := res.2.1, s := res.2.2 }
  | .photon_field =>
    let spec_sum := tot.map List.sum
    let cell_norm := List.zipWith (· * ·) spec_sum (slice cnrm rg.1 rg.2)
    { st with ret := scatter st.ret (slice idxs rg.1 rg.2) cell_norm }
  | .energy_field =>
    let vals := List.zipWith (· * ·)
      (tot.map (fun row => (List.zipWith (· * ·) row m.emid).sum))
      (slice cnrm rg.1 rg.2)
    { st with ret := scatter st.ret (slice idxs rg.1 rg.2) vals }
  | .spectrum =>
    { st with spec := (List.zipWith (· + ·) st.spec
        (weighted_row_sum m.nchan (slice cnrm rg.1 rg.2) tot)) }

/-- `ThermalSourceModel.process_data` (lines 374-549) with the initial
energy-buffer capacity `cap0` (`num_photons_max`) made explicit; the
source fixes it to 10^7 (see `process_data`). -/
def process_data_cap {σ : Type} (cap0 : ℕ) (ops : FloatOps)
    (m : ThermalSourceModelState) (rs : RandomSource σ) (mode : Mode)
    (c : ThermalChunk) (s : σ) : Option TResult × σ :=
  let orig_ncells := c.temperature.length
  if orig_ncells = 0 then
    if mode = .photons then (none, s) else (some (.arr []), s)
  else
    let cut := cut_mask m c
    let num_cells := cut.count true
    if num_cells = 0 then
      if mode = .photons then (none, s)
      else (some (.arr (List.replicate orig_ncells 0)), s)
    else
      let kTm := maskList cut c.temperature
      let cnrm := cell_nrm m c cut
      let mz := metalZ m c cut
      let ez := elemZ m c cut
      let nHm := if m.nh_field then some (maskList cut c.nH) else none
      let idxs := trueIdxs cut
      let st0 : LoopState σ :=
        ⟨List.replicate num_cells 0, List.replicate cap0 0, 0,
          List.replicate orig_ncells 0, List.replicate m.nchan 0, s⟩
      let stF := (chunkedRanges 0 num_cells).foldl
        (process_batch ops m rs mode kTm nHm cnrm mz ez idxs) st0
      match mode with
      | .photons =>
        let counts_a := stF.counts.filter (fun n => decide (0 < n))
        let idxs_a := (idxs.zip stF.counts).filterMap
          (fun p => if 0 < p.2 then some p.1 else none)
        let ee0 := stF.buf.take stF.written
        let ee := if m.binscale_is_log then ee0.map ops.exp10 else ee0
        (some (.photons idxs_a.length counts_a idxs_a ee), stF.s)
      | .spectrum => (some (.arr stF.spec), stF.s)
      | _ => (some (.arr stF.ret), stF.s)

/-- `ThermalSourceModel.process_data` with the source's initial capacity
`num_photons_max = 10000000` (line 456). -/
def process_data {σ : Type} (ops : FloatOps) (m : ThermalSourceModelState)
    (rs : RandomSource σ) (mode : Mode) (c : ThermalChunk) (s : σ) :
    Option TResult × σ :=
  process_data_cap 10000000 ops m rs mode c s

end ThermalSourceModel

/-- The §4.3 composition formula as the spec words it:
`total = continuum + metallicity·metal_shape + Σ_elem abundance_elem·elem_shape`,
each per-sample scalar broadcast across the bin axis, absent contributions
omitted. -/
def spec_composed_spectrum (nck nchan : ℕ) (continuum metal : Option Mat)
    (traces : List Mat) (metallicity : List ℚ) (abund : List (List ℚ)) : Mat :=
  let base :=
    match continuum with
    | some C => C
    | none => zeroM nck nchan
  let withMet :=
    match metal with
    | some M => madd base (scaleRows metallicity M)
    | none => base
  (abund.zip traces).foldl (fun acc p => madd acc (scaleRows p.1 p.2)) withMet

/-! ## General lemmas about the primitive operations -/

theorem slice_length {α : Type} (xs : List α) (i j : ℕ) :
    (slice xs i j).length = min (j - i) (xs.length - i) := by
  simp [slice]

theorem slice_length_of_le {α : Type} (xs : List α) (i j n : ℕ)
    (hij : i ≤ j) (hj : j ≤ n) (hn : n ≤ xs.length) :
    (slice xs i j).length = j - i := by
  rw [slice_length]
  omega

theorem cumsumFrom_length (a : ℚ) (xs : List ℚ) :
    (cumsumFrom a xs).length = xs.length := by
  induction xs generalizing a with
  | nil => rfl
  | cons x t ih => simp [cumsumFrom, ih]

theorem cumsum_length (xs : List ℚ) : (cumsum xs).length = xs.length :=
  cumsumFrom_length 0 xs

theorem maskList_length {α : Type} (mask : List Bool) (xs : List α)
    (h : mask.length = xs.length) : (maskList mask xs).length = mask.count true := by
  induction mask generalizing xs with
  | nil => simp [maskList]
  | cons b t ih =>
    cases xs with
    | nil => simp at h
    | cons x xs =>
      have h' : t.length = xs.length := by simpa using h
      cases b
      · simpa [maskList, List.count_cons] using ih xs h'
      · simpa [maskList, List.count_cons] using ih xs h'

theorem trueIdxs_length (mask : List Bool) :
    (trueIdxs mask).length = mask.count true := by
  have key : ∀ (m : List Bool) (k : ℕ),
      (((List.range' k m.length).zip m).filterMap
        (fun p => if p.2 then some p.1 else none)).length = m.count true := by
    intro m
    induction m with
    | nil => simp
    | cons b t ih =>
      intro k
      rw [List.length_cons, List.range'_succ]
      cases b <;> simp [List.count_cons, ih (k + 1)]
  rw [trueIdxs, List.range_eq_range']
  exact key mask 0

theorem getD_mem_of_lt (l : List ℚ) (i : ℕ) (d : ℚ) (h : i < l.length) :
    l.getD i d ∈ l := by
  rw [List.getD_eq_getElem l d h]
  exact List.getElem_mem h

theorem setSlice_length {α : Type} (l es : List α) (i : ℕ)
    (h : i + es.length ≤ l.length) : (setSlice l i es).length = l.length := by
  simp [setSlice]
  omega

theorem setSlice_take_left {α : Type} (l es : List α) (i : ℕ) (h : i ≤ l.length) :
    (setSlice l i es).take i = l.take i := by
  have hlen : (l.take i).length = i := by simp; omega
  simp only [setSlice, List.append_assoc]
  rw [List.take_append_of_le_length (le_of_eq hlen.symm)]
  simp [List.take_take]

theorem setSlice_take_to_end {α : Type} (l es : List α) (i : ℕ) (h : i ≤ l.length) :
    (setSlice l i es).take (i + es.length) = l.take i ++ es := by
  have hlen : (l.take i).length = i := by simp; omega
  have h1 : i + es.length = (l.take i).length + es.length := by rw [hlen]
  simp only [setSlice, List.append_assoc]
  rw [h1, List.take_append, List.take_left]

theorem setSlice_drop {α : Type} (l es : List α) (i : ℕ) (h : i ≤ l.length) :
    (setSlice l i es).drop (i + es.length) = l.drop (i + es.length) := by
  have hlen : (l.take i).length = i := by simp; omega
  have h1 : i + es.length = (l.take i).length + es.length := by rw [hlen]
  simp only [setSlice, List.append_assoc]
  rw [h1, List.drop_append, List.drop_left]

theorem growCap_eq_of_le (cap need : ℕ) (h : need ≤ cap) : growCap cap need = cap := by
  rw [growCap_eq]
  simp [h]

theorem le_growCap : ∀ cap need : ℕ, 0 < cap → need ≤ growCap cap need
  | cap, need, h => by
    rw [growCap_eq]
    split
    · next hc =>
      rcases hc with hc | hc
      · omega
      · exact hc
    · next hc =>
      push_neg at hc
      exact le_growCap (2 * cap) need (by omega)
termination_by cap need _ => need - cap
decreasing_by omega

theorem cap_le_growCap : ∀ cap need : ℕ, cap ≤ growCap cap need
  | cap, need => by
    rw [growCap_eq]
    split
    · exact le_rfl
    · next hc =>
      push_neg at hc
      calc cap ≤ 2 * cap := by omega
        _ ≤ growCap (2 * cap) need := cap_le_growCap (2 * cap) need
termination_by cap need => need - cap
decreasing_by omega

theorem growCap_doubling : ∀ cap need : ℕ, 0 < cap →
    ∃ mm, growCap cap need = cap * 2 ^ mm ∧
      (0 < mm → cap * 2 ^ (mm - 1) < need)
  | cap, need, h => by
    rw [growCap_eq]
    split
    · exact ⟨0, by simp, by omega⟩
    · next hc =>
      push_neg at hc
      obtain ⟨mm, h1, h2⟩ := growCap_doubling (2 * cap) need (by omega)
      refine ⟨mm + 1, ?_, ?_⟩
      · rw [h1]; ring
      · intro _
        rcases Nat.eq_zero_or_pos mm with hm | hm
        · subst hm
          simpa using hc.2
        · have := h2 hm
          have hrw : 2 * cap * 2 ^ (mm - 1) = cap * 2 ^ (mm + 1 - 1) := by
            rw [show mm + 1 - 1 = (mm - 1) + 1 by omega, pow_succ]
            ring
          omega
termination_by cap need _ => need - cap
decreasing_by omega

theorem write_cell_spec (buf es : List ℚ) (ei : ℕ) (h : ei ≤ buf.length)
    (hpos : 0 < buf.length) :
    (ThermalSourceModel.write_cell buf ei es).length = growCap buf.length (ei + es.length) ∧
    buf.length ≤ (ThermalSourceModel.write_cell buf ei es).length ∧
    ei + es.length ≤ (ThermalSourceModel.write_cell buf ei es).length ∧
    (ThermalSourceModel.write_cell buf ei es).take ei = buf.take ei ∧
    (ThermalSourceModel.write_cell buf ei es).take (ei + es.length) = buf.take ei ++ es := by
  have hcap1 : buf.length ≤ growCap buf.length (ei + es.length) :=
    cap_le_growCap _ _
  have hcap2 : ei + es.length ≤ growCap buf.length (ei + es.length) :=
    le_growCap _ _ hpos
  have hlen1 : (buf ++ List.replicate (growCap buf.length (ei + es.length) - buf.length) (0:ℚ)).length
      = growCap buf.length (ei + es.length) := by
    simp
    omega
  have hfit : ei + es.length ≤
      (buf ++ List.replicate (growCap buf.length (ei + es.length) - buf.length) (0:ℚ)).length := by
    rw [hlen1]; exact hcap2
  refine ⟨?_, ?_, ?_, ?_, ?_⟩
  · rw [ThermalSourceModel.write_cell, setSlice_length _ _ _ hfit, hlen1]
  · rw [ThermalSourceModel.write_cell, setSlice_length _ _ _ hfit, hlen1]; exact hcap1
  · rw [ThermalSourceModel.write_cell, setSlice_length _ _ _ hfit, hlen1]; exact hcap2
  · rw [ThermalSourceModel.write_cell, setSlice_take_left _ _ _ (by omega),
      List.take_append_of_le_length h]
  · rw [ThermalSourceModel.write_cell, setSlice_take_to_end _ _ _ (by omega),
      List.take_append_of_le_length h]

/-- A convex combination `f1 + (x-x1)(f2-f1)/(x2-x1)` with
`x1 ≤ x < x2` stays within any band containing `f1` and `f2`. -/
theorem lin_between (x x1 x2 f1 f2 lo hi : ℚ) (h1 : x1 ≤ x) (h2 : x < x2)
    (ha : lo ≤ f1) (hb : f1 ≤ hi) (hc : lo ≤ f2) (hd : f2 ≤ hi) :
    lo ≤ f1 + (x - x1) * (f2 - f1) / (x2 - x1) ∧
      f1 + (x - x1) * (f2 - f1) / (x2 - x1) ≤ hi := by
  have hdlt : 0 < x2 - x1 := by linarith
  constructor
  · rw [← sub_nonneg]
    have heq : f1 + (x - x1) * (f2 - f1) / (x2 - x1) - lo =
        ((f1 - lo) * (x2 - x) + (f2 - lo) * (x - x1)) / (x2 - x1) := by
      field_simp
      ring
    rw [heq]
    apply div_nonneg _ (le_of_lt hdlt)
    nlinarith
  · rw [← sub_nonneg]
    have heq : hi - (f1 + (x - x1) * (f2 - f1) / (x2 - x1)) =
        ((hi - f1) * (x2 - x) + (hi - f2) * (x - x1)) / (x2 - x1) := by
      field_simp
      ring
    rw [heq]
    apply div_nonneg _ (le_of_lt hdlt)
    nlinarith

/-- `interp` always returns a value within any band containing all of
`fp`, provided `fp` extends at least as far as `xp` and both are
nonempty. -/
theorem interp_bounds (x lo hi : ℚ) (xp fp : List ℚ) (hne : xp ≠ [])
    (hlen : xp.length ≤ fp.length) (hfp : ∀ f ∈ fp, lo ≤ f ∧ f ≤ hi) :
    lo ≤ interp x xp fp ∧ interp x xp fp ≤ hi := by
  have hxplen : 0 < xp.length := List.length_pos.mpr hne
  have hfplen : 0 < fp.length := by omega
  rw [interp, if_neg (by omega)]
  by_cases h1 : x < xp.getD 0 0
  · rw [if_pos h1]
    exact hfp _ (getD_mem_of_lt fp 0 0 hfplen)
  · rw [if_neg h1]
    by_cases h2 : xp.getD (xp.length - 1) 0 ≤ x
    · rw [if_pos h2]
      exact hfp _ (getD_mem_of_lt fp (fp.length - 1) 0 (by omega))
    · rw [if_neg h2]
      dsimp only
      have hex : ∃ a ∈ xp, (fun a => decide (x < a)) a := by
        refine ⟨xp.getD (xp.length - 1) 0, getD_mem_of_lt xp _ 0 (by omega), ?_⟩
        simp only [decide_eq_true_eq]
        push_neg at h2
        exact h2
      have hfilt : xp.findIdx (fun a => decide (x < a)) < xp.length :=
        List.findIdx_lt_length_of_exists hex
      have hfi_pos : 0 < xp.findIdx (fun a => decide (x < a)) := by
        cases xp with
        | nil => simp at hne
        | cons a t =>
          have ha : ¬ (x < a) := by simpa using h1
          rw [List.findIdx_cons]
          simp [ha]
      have hj2 : xp.findIdx (fun a => decide (x < a)) - 1 + 1 =
          xp.findIdx (fun a => decide (x < a)) := by omega
      have hx1le : xp.getD (xp.findIdx (fun a => decide (x < a)) - 1) 0 ≤ x := by
        rw [List.getD_eq_getElem xp 0 (by omega)]
        have hlt : xp.findIdx (fun a => decide (x < a)) - 1 <
            xp.findIdx (fun a => decide (x < a)) := by omega
        have := List.not_of_lt_findIdx hlt
        simpa using this
      have hx2gt : x < xp.getD (xp.findIdx (fun a => decide (x < a)) - 1 + 1) 0 := by
        rw [hj2, List.getD_eq_getElem xp 0 hfilt]
        have := List.findIdx_getElem (w := hfilt)
        simpa using this
      exact lin_between x _ _ _ _ lo hi hx1le hx2gt
        (hfp _ (getD_mem_of_lt fp _ 0 (by omega))).1
        (hfp _ (getD_mem_of_lt fp _ 0 (by omega))).2
        (hfp _ (getD_mem_of_lt fp _ 0 (by rw [hj2]; omega))).1
        (hfp _ (getD_mem_of_lt fp _ 0 (by rw [hj2]; omega))).2

theorem take_take_of_le {α : Type} (l : List α) (m n : ℕ) (h : n ≤ m) :
    (l.take m).take n = l.take n := by
  rw [List.take_take]
  simp [Nat.min_eq_left h]

theorem mem_zipWith' {α β γ : Type} (f : α → β → γ) (l1 : List α) (l2 : List β)
    (x : γ) (h : x ∈ List.zipWith f l1 l2) : ∃ a ∈ l1, ∃ b ∈ l2, x = f a b := by
  induction l1 generalizing l2 with
  | nil => simp at h
  | cons a t ih =>
    cases l2 with
    | nil => simp at h
    | cons b u =>
      rcases List.mem_cons.mp h with h | h
      · exact ⟨a, List.mem_cons_self _ _, b, List.mem_cons_self _ _, h⟩
      · obtain ⟨a', ha, b', hb, hx⟩ := ih u h
        exact ⟨a', List.mem_cons_of_mem _ ha, b', List.mem_cons_of_mem _ hb, hx⟩

/-! ## Shape lemmas for the batch-by-bin arrays -/

/-- `A` is an `r × c` array. -/
def MatShape (A : Mat) (r c : ℕ) : Prop :=
  A.length = r ∧ ∀ row ∈ A, row.length = c

theorem zeroM_shape (r c : ℕ) : MatShape (zeroM r c) r c := by
  constructor
  · simp [zeroM]
  · intro row h
    rw [List.eq_of_mem_replicate h]
    simp

theorem madd_shape {A B : Mat} {r c : ℕ} (hA : MatShape A r c)
    (hB : MatShape B r c) : MatShape (madd A B) r c := by
  constructor
  · simp [madd, hA.1, hB.1]
  · intro row h
    obtain ⟨ra, hra, rb, hrb, hrow⟩ := mem_zipWith' _ _ _ _ h
    rw [hrow]
    simp [hA.2 ra hra, hB.2 rb hrb]

theorem scaleRows_shape {A : Mat} {z : List ℚ} {r c : ℕ} (hA : MatShape A r c)
    (hz : r ≤ z.length) : MatShape (scaleRows z A) r c := by
  constructor
  · simp [scaleRows, hA.1]
    omega
  · intro row h
    obtain ⟨zi, hzi, ra, hra, hrow⟩ := mem_zipWith' _ _ _ _ h
    rw [hrow]
    simp [hA.2 ra hra]

theorem foldl_madd_shape {r c : ℕ} (l : List (List ℚ × Mat)) :
    ∀ acc : Mat, MatShape acc r c →
      (∀ p ∈ l, MatShape (scaleRows p.1 p.2) r c) →
      MatShape (l.foldl (fun acc zv => madd acc (scaleRows zv.1 zv.2)) acc) r c := by
  induction l with
  | nil => intro acc ha _; simpa using ha
  | cons p t ih =>
    intro acc ha hmem
    simp only [List.foldl_cons]
    exact ih _ (madd_shape ha (hmem p (List.mem_cons_self _ _)))
      (fun q hq => hmem q (List.mem_cons_of_mem _ hq))

/-- The spectral-table collaborator contract (§6): each returned array is
batch-by-bin shaped on the model's binning. -/
def SpectralShapeOK (m : ThermalSourceModelState) : Prop :=
  ∀ kTs cnH,
    (∀ cs, (m.spectral_model kTs cnH).1 = some cs → MatShape cs kTs.length m.nchan) ∧
    (∀ ms, (m.spectral_model kTs cnH).2.1 = some ms → MatShape ms kTs.length m.nchan) ∧
    (∀ vs V, (m.spectral_model kTs cnH).2.2 = some vs → V ∈ vs →
      MatShape V kTs.length m.nchan)

theorem tot_spec_batch_shape (m : ThermalSourceModelState)
    (hshape : SpectralShapeOK m) (kTs : List ℚ) (cnH : Option (List ℚ))
    (mzs : List ℚ) (ezs : List (List ℚ)) (hmz : kTs.length ≤ mzs.length)
    (hez : ∀ zj ∈ ezs, kTs.length ≤ zj.length) :
    MatShape (ThermalSourceModel.tot_spec_batch m kTs cnH mzs ezs)
      kTs.length m.nchan := by
  obtain ⟨hc, hm, hv⟩ := hshape kTs cnH
  rw [ThermalSourceModel.tot_spec_batch]
  have h0 : MatShape (zeroM kTs.length m.nchan) kTs.length m.nchan := zeroM_shape _ _
  have h1 : MatShape
      (match (m.spectral_model kTs cnH).1 with
        | some cs => madd (zeroM kTs.length m.nchan) cs
        | none => zeroM kTs.length m.nchan) kTs.length m.nchan := by
    cases hcs : (m.spectral_model kTs cnH).1 with
    | none => simpa using h0
    | some cs => simpa using madd_shape h0 (hc cs hcs)
  have h2 : ∀ t1 : Mat, MatShape t1 kTs.length m.nchan → MatShape
      (match (m.spectral_model kTs cnH).2.1 with
        | some ms => madd t1 (scaleRows mzs ms)
        | none => t1) kTs.length m.nchan := by
    intro t1 ht1
    cases hms : (m.spectral_model kTs cnH).2.1 with
    | none => simpa using ht1
    | some ms => simpa using madd_shape ht1 (scaleRows_shape (hm ms hms) hmz)
  have h2' := h2 _ h1
  split
  · next hlen =>
    cases hvs : (m.spectral_model kTs cnH).2.2 with
    | none => simp only [hvs]; exact h2'
    | some vs =>
      simp only [hvs]
      refine madd_shape h2' ?_
      refine foldl_madd_shape _ _ h0 ?_
      intro p hp
      obtain ⟨zj, hzj, V, hV, hpv⟩ := mem_zipWith' Prod.mk ezs vs p (by
        simpa [List.zip] using hp)
      rw [hpv]
      exact scaleRows_shape (hv vs V hvs hV) (hez zj hzj)
  · exact h2'

/-! ## Loop invariants -/

theorem pl_cell_e_length (ops : FloatOps) (m : PowerLawSourceModelState)
    (a : ℚ) (us : List ℚ) :
    (PowerLawSourceModel.pl_cell_e ops m a us).length = us.length := by
  rw [PowerLawSourceModel.pl_cell_e]
  split <;> simp

theorem sample_cell_e_length {σ : Type} (ops : FloatOps)
    (m : ThermalSourceModelState) (rs : RandomSource σ) (prow cprow : List ℚ)
    (cn : ℕ) (s : σ) (hm : m.method = "invert_cdf" ∨ m.method = "accept_reject") :
    (ThermalSourceModel.sample_cell_e ops m rs prow cprow cn s).1.length = cn := by
  rcases hm with hm | hm
  · simp [ThermalSourceModel.sample_cell_e, hm, List.length_insertionSort, draw_n_length]
  · rw [ThermalSourceModel.sample_cell_e, hm]
    rw [if_neg (by decide), if_pos rfl]
    simp [draw_n_length]

theorem cell_loop_spec {σ : Type} (ops : FloatOps) (m : ThermalSourceModelState)
    (rs : RandomSource σ) (P : ℚ → Prop) :
    ∀ (cells : List (ℕ × List ℚ × List ℚ)),
      (∀ cell ∈ cells, ∀ s : σ, cell.1 ≠ 0 →
        (ThermalSourceModel.sample_cell_e ops m rs cell.2.1 cell.2.2 cell.1 s).1.length = cell.1 ∧
        (∀ e ∈ (ThermalSourceModel.sample_cell_e ops m rs cell.2.1 cell.2.2 cell.1 s).1, P e)) →
      ∀ (buf : List ℚ) (ei : ℕ) (s : σ),
      ei ≤ buf.length → 0 < buf.length → (∀ e ∈ buf.take ei, P e) →
      (ThermalSourceModel.cell_loop ops m rs cells (buf, ei, s)).2.1 =
        ei + (cells.map (fun cl => cl.1)).sum ∧
      buf.length ≤ (ThermalSourceModel.cell_loop ops m rs cells (buf, ei, s)).1.length ∧
      (ThermalSourceModel.cell_loop ops m rs cells (buf, ei, s)).2.1 ≤
        (ThermalSourceModel.cell_loop ops m rs cells (buf, ei, s)).1.length ∧
      (∀ e ∈ (ThermalSourceModel.cell_loop ops m rs cells (buf, ei, s)).1.take
        (ThermalSourceModel.cell_loop ops m rs cells (buf, ei, s)).2.1, P e) ∧
      (ThermalSourceModel.cell_loop ops m rs cells (buf, ei, s)).1.take ei =
        buf.take ei := by
  intro cells
  induction cells with
  | nil =>
    intro hsample buf ei s h1 h2 h3
    refine ⟨by simp [ThermalSourceModel.cell_loop], ?_, ?_, ?_, ?_⟩ <;>
      simp [ThermalSourceModel.cell_loop]
    · exact h1
    · exact h3
  | cons cl rest ih =>
    intro hsample buf ei s h1 h2 h3
    have ihr := ih (fun cell hcell => hsample cell (List.mem_cons_of_mem _ hcell))
    by_cases hz : cl.1 = 0
    · have hstep : ThermalSourceModel.cell_loop ops m rs (cl :: rest) (buf, ei, s) =
          ThermalSourceModel.cell_loop ops m rs rest (buf, ei, s) := by
        simp only [ThermalSourceModel.cell_loop, List.foldl_cons]
        rw [if_pos hz]
      rw [hstep]
      obtain ⟨k1, k2, k3, k4, k5⟩ := ihr buf ei s h1 h2 h3
      exact ⟨by rw [k1]; simp [hz], k2, k3, k4, k5⟩
    · have hlen := (hsample cl (List.mem_cons_self _ _) s hz).1
      have hP := (hsample cl (List.mem_cons_self _ _) s hz).2
      set es := (ThermalSourceModel.sample_cell_e ops m rs cl.2.1 cl.2.2 cl.1 s).1
        with hes
      obtain ⟨w1, w2, w3, w4, w5⟩ := write_cell_spec buf es ei h1 h2
      have hstep : ThermalSourceModel.cell_loop ops m rs (cl :: rest) (buf, ei, s) =
          ThermalSourceModel.cell_loop ops m rs rest
            (ThermalSourceModel.write_cell buf ei es, ei + cl.1,
              (ThermalSourceModel.sample_cell_e ops m rs cl.2.1 cl.2.2 cl.1 s).2) := by
        simp only [ThermalSourceModel.cell_loop, List.foldl_cons]
        rw [if_neg hz]
      have hP' : ∀ e ∈ (ThermalSourceModel.write_cell buf ei es).take (ei + cl.1),
          P e := by
        intro e he
        rw [show ei + cl.1 = ei + es.length by rw [hlen], w5] at he
        rcases List.mem_append.mp he with he | he
        · exact h3 e he
        · exact hP e he
      obtain ⟨k1, k2, k3, k4, k5⟩ := ihr (ThermalSourceModel.write_cell buf ei es)
        (ei + cl.1)
        (ThermalSourceModel.sample_cell_e ops m rs cl.2.1 cl.2.2 cl.1 s).2
        (by rw [show ei + cl.1 = ei + es.length by rw [hlen]]; exact w3)
        (by omega) hP'
      rw [hstep]
      refine ⟨?_, ?_, k3, k4, ?_⟩
      · rw [k1]
        simp [List.sum_cons]
        omega
      · omega
      · rw [show (ThermalSourceModel.cell_loop ops m rs rest
            (ThermalSourceModel.write_cell buf ei es, ei + cl.1,
              (ThermalSourceModel.sample_cell_e ops m rs cl.2.1 cl.2.2 cl.1 s).2)).1.take ei
            = ((ThermalSourceModel.cell_loop ops m rs rest _).1.take (ei + cl.1)).take ei
            from (take_take_of_le _ _ _ (by omega)).symm]
        rw [k5]
        rw [← w4]
        exact take_take_of_le _ _ _ (by omega)

theorem chunkedRanges_mem : ∀ i n : ℕ, ∀ rg ∈ chunkedRanges i n,
    i ≤ rg.1 ∧ rg.1 < rg.2 ∧ rg.2 ≤ n ∧ rg.2 - rg.1 ≤ 100
  | i, n => by
    rw [chunkedRanges_eq]
    split
    · next hin =>
      intro rg hrg
      rcases List.mem_cons.mp hrg with h | h
      · rw [h]
        constructor
        · exact le_rfl
        · refine ⟨?_, ?_, ?_⟩ <;> simp <;> omega
      · have := chunkedRanges_mem (min (i + 100) n) n rg h
        refine ⟨?_, this.2.1, this.2.2.1, this.2.2.2⟩
        have : min (i + 100) n ≤ rg.1 := this.1
        omega
    · intro rg hrg
      simp at hrg
termination_by i n => n - i
decreasing_by omega

theorem chunkedRanges_flatten : ∀ i n : ℕ, i ≤ n →
    ((chunkedRanges i n).map (fun rg => List.range' rg.1 (rg.2 - rg.1))).flatten =
      List.range' i (n - i)
  | i, n, hin => by
    rw [chunkedRanges_eq]
    split
    · next h =>
      rw [List.map_cons, List.flatten_cons]
      dsimp only
      rw [chunkedRanges_flatten (min (i + 100) n) n (by omega)]
      have h1 : min (i + 100) n - i + (n - min (i + 100) n) = n - i := by omega
      have h2 : i + (min (i + 100) n - i) = min (i + 100) n := by omega
      calc List.range' i (min (i + 100) n - i) ++
            List.range' (min (i + 100) n) (n - min (i + 100) n)
          = List.range' i (min (i + 100) n - i) ++
            List.range' (i + (min (i + 100) n - i)) (n - min (i + 100) n) := by rw [h2]
        _ = List.range' i (n - i) := by
            rw [show i + (min (i + 100) n - i) = i + 1 * (min (i + 100) n - i) by ring]
            rw [List.range'_append]
            congr 1
            omega
    · next h =>
      have : i = n := by omega
      simp [this]
termination_by i n _ => n - i
decreasing_by omega

/-- Master invariant of the photons-mode batch loop: after the fold over
the remaining batches, the photon-count array still has length `n`, its
total equals the buffer write position, the write position is within the
buffer, and every written energy satisfies `P`. -/
theorem photons_batches_spec {σ : Type} (ops : FloatOps)
    (m : ThermalSourceModelState) (rs : RandomSource σ) (P : ℚ → Prop)
    (hsample : ∀ prow cprow cn s, cprow.length = m.nchan + 1 → cn ≠ 0 →
      (ThermalSourceModel.sample_cell_e ops m rs prow cprow cn s).1.length = cn ∧
      (∀ e ∈ (ThermalSourceModel.sample_cell_e ops m rs prow cprow cn s).1, P e))
    (hshape : SpectralShapeOK m) (kTm : List ℚ) (nHm : Option (List ℚ))
    (cnrm mz : List ℚ) (ez : List (List ℚ)) (idxs : List ℕ) (n : ℕ)
    (hkT : n ≤ kTm.length) (hcn : n ≤ cnrm.length) (hmz : n ≤ mz.length)
    (hez : ∀ zj ∈ ez, n ≤ zj.length) :
    ∀ i : ℕ, ∀ st : ThermalSourceModel.LoopState σ, i ≤ n →
      st.counts.length = n →
      (st.counts.take i).sum = st.written →
      st.counts.drop i = List.replicate (n - i) 0 →
      st.written ≤ st.buf.length → 0 < st.buf.length →
      (∀ e ∈ st.buf.take st.written, P e) →
      ((chunkedRanges i n).foldl
        (ThermalSourceModel.process_batch ops m rs .photons kTm nHm cnrm mz ez idxs)
          st).counts.length = n ∧
      ((chunkedRanges i n).foldl
        (ThermalSourceModel.process_batch ops m rs .photons kTm nHm cnrm mz ez idxs)
          st).counts.sum =
        ((chunkedRanges i n).foldl
          (ThermalSourceModel.process_batch ops m rs .photons kTm nHm cnrm mz ez idxs)
            st).written ∧
      ((chunkedRanges i n).foldl
        (ThermalSourceModel.process_batch ops m rs .photons kTm nHm cnrm mz ez idxs)
          st).written ≤
        ((chunkedRanges i n).foldl
          (ThermalSourceModel.process_batch ops m rs .photons kTm nHm cnrm mz ez idxs)
            st).buf.length ∧
      (∀ e ∈ ((chunkedRanges i n).foldl
        (ThermalSourceModel.process_batch ops m rs .photons kTm nHm cnrm mz ez idxs)
          st).buf.take
        ((chunkedRanges i n).foldl
          (ThermalSourceModel.process_batch ops m rs .photons kTm nHm cnrm mz ez idxs)
            st).written, P e)
  | i, st, hin, hc1, hc2, hc3, hw, hb, hP => by
    rw [chunkedRanges_eq]
    split
    · next hlt =>
      rw [List.foldl_cons]
      have hkTs_len : (slice kTm i (min (i + 100) n)).length = min (i + 100) n - i :=
        slice_length_of_le kTm i (min (i + 100) n) n (by omega) (by omega) hkT
      have htot_shape : MatShape
          (ThermalSourceModel.tot_spec_batch m (slice kTm i (min (i + 100) n))
            (nHm.map (fun v => slice v i (min (i + 100) n)))
            (slice mz i (min (i + 100) n))
            (ez.map (fun zj => slice zj i (min (i + 100) n))))
          (min (i + 100) n - i) m.nchan := by
        rw [← hkTs_len]
        refine tot_spec_batch_shape m hshape _ _ _ _ ?_ ?_
        · rw [hkTs_len, slice_length]
          omega
        · intro zj hzj
          obtain ⟨zj0, hzj0, rfl⟩ := List.mem_map.mp hzj
          rw [hkTs_len, slice_length]
          have := hez zj0 hzj0
          omega
      have hss_len : ((ThermalSourceModel.tot_spec_batch m
          (slice kTm i (min (i + 100) n))
          (nHm.map (fun v => slice v i (min (i + 100) n)))
          (slice mz i (min (i + 100) n))
          (ez.map (fun zj => slice zj i (min (i + 100) n)))).map List.sum).length =
          min (i + 100) n - i := by
        rw [List.length_map, htot_shape.1]
      have hcnorm_len : (List.zipWith (· * ·)
          ((ThermalSourceModel.tot_spec_batch m (slice kTm i (min (i + 100) n))
            (nHm.map (fun v => slice v i (min (i + 100) n)))
            (slice mz i (min (i + 100) n))
            (ez.map (fun zj => slice zj i (min (i + 100) n)))).map List.sum)
          (slice cnrm i (min (i + 100) n))).length = min (i + 100) n - i := by
        rw [List.length_zipWith, hss_len, slice_length]
        omega
      -- the per-batch photon-count vector
      generalize hTOT : ThermalSourceModel.tot_spec_batch m
          (slice kTm i (min (i + 100) n))
          (nHm.map (fun v => slice v i (min (i + 100) n)))
          (slice mz i (min (i + 100) n))
          (ez.map (fun zj => slice zj i (min (i + 100) n))) = TOT at *
      generalize hPR : drawList (fun s lam => rs.poisson s lam) st.s
          (List.zipWith (· * ·) (TOT.map List.sum)
            (slice cnrm i (min (i + 100) n))) = PR at *
      have hcn_len : PR.1.length = min (i + 100) n - i := by
        rw [← hPR, drawList_length, hcnorm_len]
      have hcells_fst : (PR.1.zip
          ((List.zipWith (fun ssum row => row.map (fun x => 1 / ssum * x))
            (TOT.map List.sum) TOT).zip
          ((List.zipWith (fun ssum row => row.map (fun x => 1 / ssum * x))
            (TOT.map List.sum) TOT).map (fun row => 0 :: cumsum row)))).map
          (fun cl => cl.1) = PR.1 := by
        refine List.map_fst_zip _ _ ?_
        rw [hcn_len, List.length_zip, List.length_zipWith, List.length_map,
          List.length_map, List.length_zipWith, List.length_map, htot_shape.1]
        omega
      have hstep : ThermalSourceModel.process_batch ops m rs .photons kTm nHm
          cnrm mz ez idxs st (i, min (i + 100) n) =
          { st with
            counts := setSlice st.counts i PR.1,
            buf := (ThermalSourceModel.cell_loop ops m rs
              (PR.1.zip
                ((List.zipWith (fun ssum row => row.map (fun x => 1 / ssum * x))
                  (TOT.map List.sum) TOT).zip
                ((List.zipWith (fun ssum row => row.map (fun x => 1 / ssum * x))
                  (TOT.map List.sum) TOT).map (fun row => 0 :: cumsum row))))
              (st.buf, st.written, PR.2)).1,
            written := (ThermalSourceModel.cell_loop ops m rs
              (PR.1.zip
                ((List.zipWith (fun ssum row => row.map (fun x => 1 / ssum * x))
                  (TOT.map List.sum) TOT).zip
                ((List.zipWith (fun ssum row => row.map (fun x => 1 / ssum * x))
                  (TOT.map List.sum) TOT).map (fun row => 0 :: cumsum row))))
              (st.buf, st.written, PR.2)).2.1,
            s := (ThermalSourceModel.cell_loop ops m rs
              (PR.1.zip
                ((List.zipWith (fun ssum row => row.map (fun x => 1 / ssum * x))
                  (TOT.map List.sum) TOT).zip
                ((List.zipWith (fun ssum row => row.map (fun x => 1 / ssum * x))
                  (TOT.map List.sum) TOT).map (fun row => 0 :: cumsum row))))
              (st.buf, st.written, PR.2)).2.2 } := by
        rw [ThermalSourceModel.process_batch]
        dsimp only
        rw [hTOT, hPR]
      have hcellmem : ∀ cell ∈ (PR.1.zip
          ((List.zipWith (fun ssum row => row.map (fun x => 1 / ssum * x))
            (TOT.map List.sum) TOT).zip
          ((List.zipWith (fun ssum row => row.map (fun x => 1 / ssum * x))
            (TOT.map List.sum) TOT).map (fun row => 0 :: cumsum row)))),
          cell.2.2.length = m.nchan + 1 := by
        intro cell hcell
        obtain ⟨a, ha, bc, hbc, rfl⟩ := mem_zipWith' Prod.mk _ _ _ (by
          simpa [List.zip] using hcell)
        obtain ⟨prow, hprow, cprow, hcprow, rfl⟩ := mem_zipWith' Prod.mk _ _ _ (by
          simpa [List.zip] using hbc)
        obtain ⟨row, hrow, rfl⟩ := List.mem_map.mp hcprow
        obtain ⟨ssum, hss2, trow, htrow, rfl⟩ := mem_zipWith' _ _ _ _ hrow
        simp only [List.length_cons, cumsum_length, List.length_map]
        rw [htot_shape.2 trow htrow]
      obtain ⟨k1, k2, k3, k4, k5⟩ := cell_loop_spec ops m rs P
        (PR.1.zip
          ((List.zipWith (fun ssum row => row.map (fun x => 1 / ssum * x))
            (TOT.map List.sum) TOT).zip
          ((List.zipWith (fun ssum row => row.map (fun x => 1 / ssum * x))
            (TOT.map List.sum) TOT).map (fun row => 0 :: cumsum row))))
        (fun cell hcell s hcz =>
          hsample cell.2.1 cell.2.2 cell.1 s (hcellmem cell hcell) hcz)
        st.buf st.written PR.2 hw hb hP
      rw [hcells_fst] at k1
      have hic : i ≤ st.counts.length := by omega
      have hj2 : i + PR.1.length = min (i + 100) n := by omega
      have hcounts_len : (setSlice st.counts i PR.1).length = n := by
        rw [setSlice_length st.counts PR.1 i (by omega)]
        exact hc1
      have hsum' : ((setSlice st.counts i PR.1).take (min (i + 100) n)).sum =
          st.written + PR.1.sum := by
        rw [← hj2, setSlice_take_to_end st.counts PR.1 i hic, List.sum_append, hc2]
      have hdrop' : (setSlice st.counts i PR.1).drop (min (i + 100) n) =
          List.replicate (n - min (i + 100) n) 0 := by
        rw [← hj2, setSlice_drop st.counts PR.1 i hic, hj2]
        rw [show st.counts.drop (min (i + 100) n) =
            (st.counts.drop i).drop (min (i + 100) n - i) by
          rw [List.drop_drop]; congr 1; omega]
        rw [hc3, List.drop_replicate]
        congr 1
        omega
      rw [hstep]
      exact photons_batches_spec ops m rs P hsample hshape kTm nHm cnrm mz ez
        idxs n hkT hcn hmz hez (min (i + 100) n) _ (by omega) hcounts_len
        (by dsimp only; rw [hsum', k1]) hdrop' k3 (by dsimp only; omega) k4
    · next hlt =>
      have hieq : i = n := by omega
      rw [List.foldl_nil]
      have htk : st.counts.take i = st.counts := by
        rw [hieq, ← hc1]
        exact List.take_length st.counts
      refine ⟨hc1, ?_, hw, hP⟩
      rw [← hc2, htk]
termination_by i st _ _ _ _ _ _ _ => n - i
decreasing_by omega

theorem sum_filter_pos (l : List ℕ) :
    (l.filter (fun n => decide (0 < n))).sum = l.sum := by
  induction l with
  | nil => rfl
  | cons x t ih =>
    by_cases h : 0 < x
    · simp [List.filter_cons, h, ih]
    · have hx : x = 0 := by omega
      subst hx
      simp [List.filter_cons, ih]

theorem filterMap_zip_length (idxs : List ℕ) (cnts : List ℕ)
    (h : cnts.length ≤ idxs.length) :
    ((idxs.zip cnts).filterMap (fun p => if 0 < p.2 then some p.1 else none)).length =
      (cnts.filter (fun n => decide (0 < n))).length := by
  induction idxs generalizing cnts with
  | nil =>
    cases cnts with
    | nil => rfl
    | cons c t => simp at h
  | cons a t ih =>
    cases cnts with
    | nil => simp
    | cons c u =>
      have h' : u.length ≤ t.length := by simpa using h
      by_cases hc : 0 < c
      · simp [List.filter_cons, hc, ih u h']
      · simp [List.filter_cons, hc, ih u h']

theorem pl_energy_loop_spec {σ : Type} (ops : FloatOps)
    (m : PowerLawSourceModelState) (rs : RandomSource σ) :
    ∀ (cells : List (ℚ × ℕ)) (buf : List ℚ) (pos : ℕ) (s : σ),
      pos + (cells.map (fun cl => cl.2)).sum ≤ buf.length →
      (PowerLawSourceModel.pl_energy_loop ops m rs cells (buf, pos, s)).1.length =
        buf.length ∧
      (PowerLawSourceModel.pl_energy_loop ops m rs cells (buf, pos, s)).2.1 =
        pos + (cells.map (fun cl => cl.2)).sum := by
  intro cells
  induction cells with
  | nil =>
    intro buf pos s h
    exact ⟨rfl, by simp [PowerLawSourceModel.pl_energy_loop]⟩
  | cons cl rest ih =>
    intro buf pos s h
    by_cases hz : cl.2 = 0
    · have hstep : PowerLawSourceModel.pl_energy_loop ops m rs (cl :: rest)
          (buf, pos, s) =
          PowerLawSourceModel.pl_energy_loop ops m rs rest (buf, pos, s) := by
        simp only [PowerLawSourceModel.pl_energy_loop, List.foldl_cons]
        rw [if_pos hz]
      rw [hstep]
      obtain ⟨k1, k2⟩ := ih buf pos s (by simp at h ⊢; omega)
      refine ⟨k1, by rw [k2]; simp [hz]⟩
    · have hstep : PowerLawSourceModel.pl_energy_loop ops m rs (cl :: rest)
          (buf, pos, s) =
          PowerLawSourceModel.pl_energy_loop ops m rs rest
            (setSlice buf pos
              ((PowerLawSourceModel.pl_cell_e ops m cl.1
                (draw_n rs.uniform s cl.2).1).map (fun x => x * m.scale_factor)),
              pos + cl.2, (draw_n rs.uniform s cl.2).2) := by
        simp only [PowerLawSourceModel.pl_energy_loop, List.foldl_cons]
        rw [if_neg hz]
      have heslen : ((PowerLawSourceModel.pl_cell_e ops m cl.1
          (draw_n rs.uniform s cl.2).1).map (fun x => x * m.scale_factor)).length =
          cl.2 := by
        rw [List.length_map, pl_cell_e_length, draw_n_length]
      have hsums : pos + cl.2 + (rest.map (fun cl => cl.2)).sum ≤ buf.length := by
        simp at h
        omega
      have hsl : (setSlice buf pos
          ((PowerLawSourceModel.pl_cell_e ops m cl.1
            (draw_n rs.uniform s cl.2).1).map (fun x => x * m.scale_factor))).length =
          buf.length := by
        rw [setSlice_length]
        rw [heslen]
        omega
      rw [hstep]
      obtain ⟨k1, k2⟩ := ih _ (pos + cl.2) (draw_n rs.uniform s cl.2).2
        (by rw [hsl]; exact hsums)
      refine ⟨by rw [k1, hsl], by rw [k2]; simp; omega⟩

theorem line_broaden_loop_spec {σ : Type} (rs : RandomSource σ) :
    ∀ (cells : List (ℚ × ℕ)) (buf : List ℚ) (pos : ℕ) (s : σ),
      pos + (cells.map (fun cl => cl.2)).sum ≤ buf.length →
      (LineSourceModel.line_broaden_loop rs cells (buf, pos, s)).1.length =
        buf.length := by
  intro cells
  induction cells with
  | nil => intro buf pos s h; rfl
  | cons cl rest ih =>
    intro buf pos s h
    by_cases hz : cl.2 = 0
    · have hstep : LineSourceModel.line_broaden_loop rs (cl :: rest) (buf, pos, s) =
          LineSourceModel.line_broaden_loop rs rest (buf, pos, s) := by
        simp only [LineSourceModel.line_broaden_loop, List.foldl_cons]
        rw [if_pos hz]
      rw [hstep]
      exact ih buf pos s (by simp at h ⊢; omega)
    · have hstep : LineSourceModel.line_broaden_loop rs (cl :: rest) (buf, pos, s) =
          LineSourceModel.line_broaden_loop rs rest
            (setSlice buf pos
              (List.zipWith (· + ·) (slice buf pos (pos + cl.2))
                (draw_n (fun s => rs.normal s cl.1) s cl.2).1),
              pos + cl.2, (draw_n (fun s => rs.normal s cl.1) s cl.2).2) := by
        simp only [LineSourceModel.line_broaden_loop, List.foldl_cons]
        rw [if_neg hz]
      have heslen : (List.zipWith (· + ·) (slice buf pos (pos + cl.2))
          (draw_n (fun s => rs.normal s cl.1) s cl.2).1).length = cl.2 := by
        rw [List.length_zipWith, draw_n_length, slice_length]
        simp at h
        omega
      have hsl : (setSlice buf pos
          (List.zipWith (· + ·) (slice buf pos (pos + cl.2))
            (draw_n (fun s => rs.normal s cl.1) s cl.2).1)).length = buf.length := by
        rw [setSlice_length]
        rw [heslen]
        simp at h
        omega
      rw [hstep]
      rw [ih _ (pos + cl.2) (draw_n (fun s => rs.normal s cl.1) s cl.2).2
        (by rw [hsl]; simp at h; omega)]
      exact hsl

/-! ## Chunk well-formedness and masked-array lengths -/

/-- All field arrays of one chunk agree in flattened length, and the
trace-element field table matches the configured trace elements. -/
def ChunkWF (m : ThermalSourceModelState) (c : ThermalChunk) : Prop :=
  c.density.length = c.temperature.length ∧
  c.nH.length = c.temperature.length ∧
  c.emission_measure.length = c.temperature.length ∧
  c.h_fraction.length = c.temperature.length ∧
  c.metallicity.length = c.temperature.length ∧
  c.elem_fields.length = m.var_elem.length ∧
  (∀ f ∈ c.elem_fields, f.length = c.temperature.length)

theorem cut_mask_length (m : ThermalSourceModelState) (c : ThermalChunk)
    (h : ChunkWF m c) :
    (ThermalSourceModel.cut_mask m c).length = c.temperature.length := by
  simp [ThermalSourceModel.cut_mask, h.1, h.2.1]

theorem X_H_length (m : ThermalSourceModelState) (c : ThermalChunk)
    (h : ChunkWF m c) :
    (ThermalSourceModel.X_H m c (ThermalSourceModel.cut_mask m c)).length =
      (ThermalSourceModel.cut_mask m c).count true := by
  rw [ThermalSourceModel.X_H]
  cases m.h_fraction with
  | none =>
    exact maskList_length _ _ (by rw [cut_mask_length m c h, h.2.2.2.1])
  | some x => simp

theorem cell_nrm_length (m : ThermalSourceModelState) (c : ThermalChunk)
    (h : ChunkWF m c) :
    (ThermalSourceModel.cell_nrm m c (ThermalSourceModel.cut_mask m c)).length =
      (ThermalSourceModel.cut_mask m c).count true := by
  have hbase : ((maskList (ThermalSourceModel.cut_mask m c) c.emission_measure).map
      (fun em => em * m.spectral_norm)).length =
      (ThermalSourceModel.cut_mask m c).count true := by
    rw [List.length_map]
    exact maskList_length _ _ (by rw [cut_mask_length m c h, h.2.2.1])
  have hnh : (maskList (ThermalSourceModel.cut_mask m c) c.nH).length =
      (ThermalSourceModel.cut_mask m c).count true :=
    maskList_length _ _ (by rw [cut_mask_length m c h, h.2.1])
  rw [ThermalSourceModel.cell_nrm]
  split
  · rw [List.length_zipWith, hbase, hnh]
    simp
  · exact hbase

theorem metalZ_length (m : ThermalSourceModelState) (c : ThermalChunk)
    (h : ChunkWF m c) :
    (ThermalSourceModel.metalZ m c (ThermalSourceModel.cut_mask m c)).length =
      (ThermalSourceModel.cut_mask m c).count true := by
  have hmz : (maskList (ThermalSourceModel.cut_mask m c) c.metallicity).length =
      (ThermalSourceModel.cut_mask m c).count true :=
    maskList_length _ _ (by rw [cut_mask_length m c h, h.2.2.2.2.1])
  rw [ThermalSourceModel.metalZ]
  split
  · simp
  · cases m.Zmet with
    | some z => simp
    | none =>
      simp only
      split
      · rw [List.length_map, hmz]
      · rw [List.length_zipWith, hmz, X_H_length m c h]
        simp

theorem elemZ_mem_length (m : ThermalSourceModelState) (c : ThermalChunk)
    (h : ChunkWF m c) :
    ∀ zj ∈ ThermalSourceModel.elemZ m c (ThermalSourceModel.cut_mask m c),
      zj.length = (ThermalSourceModel.cut_mask m c).count true := by
  intro zj hzj
  rw [ThermalSourceModel.elemZ] at hzj
  obtain ⟨j, hj, rfl⟩ := List.mem_map.mp hzj
  have hjlt : j < m.var_elem.length := List.mem_range.mp hj
  have hflen : (c.elem_fields.getD j []).length = c.temperature.length := by
    have hjlt' : j < c.elem_fields.length := by rw [h.2.2.2.2.2.1]; exact hjlt
    rw [List.getD_eq_getElem _ _ hjlt']
    exact h.2.2.2.2.2.2 _ (List.getElem_mem hjlt')
  have hmask : (maskList (ThermalSourceModel.cut_mask m c)
      (c.elem_fields.getD j [])).length =
      (ThermalSourceModel.cut_mask m c).count true :=
    maskList_length _ _ (by rw [cut_mask_length m c h, hflen])
  cases hv : m.var_elem.getD j none with
  | some v => simp [hv]
  | none =>
    simp only [hv]
    split
    · rw [List.length_map, hmask]
    · rw [List.length_zipWith, hmask, X_H_length m c h]
      simp

/-- In a successful photons-mode call of the thermal engine, the returned
counts sum to the energy-array length, the index list is as long as the
returned counts, `ncells` is that length, and every returned count is
positive. -/
theorem thermal_photons_population {σ : Type} (cap0 : ℕ) (ops : FloatOps)
    (m : ThermalSourceModelState) (rs : RandomSource σ) (c : ThermalChunk)
    (s : σ) (hcap : 0 < cap0) (hwf : ChunkWF m c) (hshape : SpectralShapeOK m)
    (hmethod : m.method = "invert_cdf" ∨ m.method = "accept_reject") :
    ∀ nc cnts idxs ee s',
      ThermalSourceModel.process_data_cap cap0 ops m rs .photons c s =
        (some (.photons nc cnts idxs ee), s') →
      cnts.sum = ee.length ∧ idxs.length = cnts.length ∧ nc = idxs.length ∧
      (∀ k ∈ cnts, 0 < k) := by
  intro nc cnts idxs ee s' heq
  rw [ThermalSourceModel.process_data_cap] at heq
  by_cases h0 : c.temperature.length = 0
  · rw [if_pos h0] at heq
    simp at heq
  · rw [if_neg h0] at heq
    by_cases hn : (ThermalSourceModel.cut_mask m c).count true = 0
    · rw [if_pos hn] at heq
      simp at heq
    · rw [if_neg hn] at heq
      simp only [Option.some.injEq, Prod.mk.injEq, TResult.photons.injEq] at heq
      obtain ⟨⟨e1, e2, e3, e4⟩, e5⟩ := heq
      have hcut : (ThermalSourceModel.cut_mask m c).length =
          c.temperature.length := cut_mask_length m c hwf
      have hkTm : (maskList (ThermalSourceModel.cut_mask m c) c.temperature).length =
          (ThermalSourceModel.cut_mask m c).count true :=
        maskList_length _ _ hcut
      have hidxs : (trueIdxs (ThermalSourceModel.cut_mask m c)).length =
          (ThermalSourceModel.cut_mask m c).count true :=
        trueIdxs_length _
      set F := (chunkedRanges 0 ((ThermalSourceModel.cut_mask m c).count true)).foldl
          (ThermalSourceModel.process_batch ops m rs .photons
            (maskList (ThermalSourceModel.cut_mask m c) c.temperature)
            (if m.nh_field then
              some (maskList (ThermalSourceModel.cut_mask m c) c.nH) else none)
            (ThermalSourceModel.cell_nrm m c (ThermalSourceModel.cut_mask m c))
            (ThermalSourceModel.metalZ m c (ThermalSourceModel.cut_mask m c))
            (ThermalSourceModel.elemZ m c (ThermalSourceModel.cut_mask m c))
            (trueIdxs (ThermalSourceModel.cut_mask m c)))
          ⟨List.replicate ((ThermalSourceModel.cut_mask m c).count true) 0,
            List.replicate cap0 0, 0, List.replicate c.temperature.length 0,
            List.replicate m.nchan 0, s⟩ with hFdef
      obtain ⟨g1, g2, g3, g4⟩ := photons_batches_spec ops m rs (fun _ => True)
        (fun prow cprow cn s _ hcn =>
          ⟨sample_cell_e_length ops m rs prow cprow cn s hmethod,
            fun _ _ => trivial⟩)
        hshape
        (maskList (ThermalSourceModel.cut_mask m c) c.temperature)
        (if m.nh_field then some (maskList (ThermalSourceModel.cut_mask m c) c.nH)
          else none)
        (ThermalSourceModel.cell_nrm m c (ThermalSourceModel.cut_mask m c))
        (ThermalSourceModel.metalZ m c (ThermalSourceModel.cut_mask m c))
        (ThermalSourceModel.elemZ m c (ThermalSourceModel.cut_mask m c))
        (trueIdxs (ThermalSourceModel.cut_mask m c))
        ((ThermalSourceModel.cut_mask m c).count true)
        (le_of_eq hkTm.symm)
        (le_of_eq (cell_nrm_length m c hwf).symm)
        (le_of_eq (metalZ_length m c hwf).symm)
        (fun zj hzj => le_of_eq (elemZ_mem_length m c hwf zj hzj).symm)
        0
        ⟨List.replicate ((ThermalSourceModel.cut_mask m c).count true) 0,
          List.replicate cap0 0, 0, List.replicate c.temperature.length 0,
          List.replicate m.nchan 0, s⟩
        (by omega) (by simp) (by simp) (by simp) (by simp) (by simpa using hcap)
        (by simp)
      rw [← hFdef] at g1 g2 g3 g4
      have hlen : (F.buf.take F.written).length = F.written := by
        rw [List.length_take]
        omega
      refine ⟨?_, ?_, ?_, ?_⟩
      · rw [← e2, ← e4, sum_filter_pos, g2]
        split
        · rw [List.length_map]
          exact hlen.symm
        · exact hlen.symm
      · rw [← e2, ← e3]
        rw [filterMap_zip_length _ _ (by rw [g1, hidxs])]
      · rw [← e1, ← e3]
      · intro k hk
        rw [← e2] at hk
        have := List.of_mem_filter hk
        simpa using this

theorem count_true_map {α : Type} (f : α → Bool) (l : List α) :
    (l.map f).count true = (l.filter f).length := by
  induction l with
  | nil => rfl
  | cons x t ih =>
    by_cases h : f x = true
    · simp [List.count_cons, List.filter_cons, h, ih]
    · simp [List.count_cons, List.filter_cons, h, ih]

/-- In a successful photons-mode call of the power-law engine, the
returned counts sum to the energy-array length, the third component is
the boolean active-cell mask over the whole chunk, and its true-count is
the number of returned (positive) counts. -/
theorem pl_photons_population {σ : Type} (ops : FloatOps)
    (m : PowerLawSourceModelState) (rs : RandomSource σ) (c : PLChunk)
    (emid : List ℚ) (s : σ)
    (halpha : (PowerLawSourceModel.alphas m c).length = c.emission.length) :
    ∀ nc cnts active ee s',
      PowerLawSourceModel.process_data ops m rs .photons c emid s =
        (some (.photons nc cnts active ee), s') →
      cnts.sum = ee.length ∧ active.length = c.emission.length ∧
      active.count true = cnts.length ∧ nc = active.count true ∧
      (∀ k ∈ cnts, 0 < k) := by
  intro nc cnts active ee s' heq
  rw [PowerLawSourceModel.process_data] at heq
  simp only [Option.some.injEq, Prod.mk.injEq, PLResult.photons.injEq] at heq
  obtain ⟨⟨e1, e2, e3, e4⟩, e5⟩ := heq
  have hlam : (PowerLawSourceModel.pl_lam ops m c).length = c.emission.length := by
    rw [PowerLawSourceModel.pl_lam, List.length_map, List.length_zipWith, halpha]
    simp
  have hcntlen : (drawList (fun s l => rs.poisson s l) s
      (PowerLawSourceModel.pl_lam ops m c)).1.length = c.emission.length := by
    rw [drawList_length, hlam]
  have hsnd : (((PowerLawSourceModel.alphas m c).zip
      (drawList (fun s l => rs.poisson s l) s
        (PowerLawSourceModel.pl_lam ops m c)).1).map (fun cl => cl.2)) =
      (drawList (fun s l => rs.poisson s l) s
        (PowerLawSourceModel.pl_lam ops m c)).1 :=
    List.map_snd_zip _ _ (by rw [hcntlen, halpha])
  obtain ⟨k1, k2⟩ := pl_energy_loop_spec ops m rs
    ((PowerLawSourceModel.alphas m c).zip
      (drawList (fun s l => rs.poisson s l) s
        (PowerLawSourceModel.pl_lam ops m c)).1)
    (List.replicate (drawList (fun s l => rs.poisson s l) s
      (PowerLawSourceModel.pl_lam ops m c)).1.sum 0)
    0 (drawList (fun s l => rs.poisson s l) s
      (PowerLawSourceModel.pl_lam ops m c)).2
    (by rw [hsnd]; simp)
  refine ⟨?_, ?_, ?_, ?_, ?_⟩
  · rw [← e2, ← e4, sum_filter_pos, List.length_take, k1, k2, hsnd]
    simp
  · rw [← e3, List.length_map, hcntlen]
  · rw [← e2, ← e3, count_true_map]
  · rw [← e1, ← e3]
  · intro k hk
    rw [← e2] at hk
    have := List.of_mem_filter hk
    simpa using this

/-- In a successful photons-mode call of the line engine, the returned
counts sum to the energy-array length, the third component is the boolean
active-cell mask over the whole chunk, and its true-count is the number
of returned (positive) counts. -/
theorem line_photons_population {σ : Type} (m : LineSourceModelState)
    (rs : RandomSource σ) (c : LineChunk) (ebins : List ℚ) (s : σ)
    (hsig : c.emission.length ≤ c.sigma_field.length) :
    ∀ nc cnts active ee s',
      LineSourceModel.process_data m rs .photons c ebins s =
        (some (.photons nc cnts active ee), s') →
      cnts.sum = ee.length ∧ active.length = c.emission.length ∧
      active.count true = cnts.length ∧ nc = active.count true ∧
      (∀ k ∈ cnts, 0 < k) := by
  intro nc cnts active ee s' heq
  rw [LineSourceModel.process_data] at heq
  have hcntlen : (drawList (fun s l => rs.poisson s l) s
      (LineSourceModel.line_lam m c)).1.length = c.emission.length := by
    rw [drawList_length, LineSourceModel.line_lam, List.length_map]
  have heelen : ∀ res : List ℚ × σ,
      res.1.length = (drawList (fun s l => rs.poisson s l) s
        (LineSourceModel.line_lam m c)).1.sum →
      ((res.1.map (fun e => e * m.scale_factor)).length =
        (drawList (fun s l => rs.poisson s l) s
          (LineSourceModel.line_lam m c)).1.sum) := by
    intro res h
    rw [List.length_map, h]
  cases hs : m.sigma with
  | noSigma =>
    rw [hs] at heq
    simp only [Option.some.injEq, Prod.mk.injEq, PLResult.photons.injEq] at heq
    obtain ⟨⟨e1, e2, e3, e4⟩, e5⟩ := heq
    refine ⟨?_, ?_, ?_, ?_, ?_⟩
    · rw [← e2, ← e4, sum_filter_pos, List.length_map]
      simp
    · rw [← e3, List.length_map, hcntlen]
    · rw [← e2, ← e3, count_true_map]
    · rw [← e1, ← e3]
    · intro k hk
      rw [← e2] at hk
      have := List.of_mem_filter hk
      simpa using this
  | constSigma v =>
    rw [hs] at heq
    simp only [Option.some.injEq, Prod.mk.injEq, PLResult.photons.injEq] at heq
    obtain ⟨⟨e1, e2, e3, e4⟩, e5⟩ := heq
    refine ⟨?_, ?_, ?_, ?_, ?_⟩
    · rw [← e2, ← e4, sum_filter_pos, List.length_map, List.length_zipWith,
        draw_n_length]
      simp
    · rw [← e3, List.length_map, hcntlen]
    · rw [← e2, ← e3, count_true_map]
    · rw [← e1, ← e3]
    · intro k hk
      rw [← e2] at hk
      have := List.of_mem_filter hk
      simpa using this
  | fieldSigma =>
    rw [hs] at heq
    simp only [Option.some.injEq, Prod.mk.injEq, PLResult.photons.injEq] at heq
    obtain ⟨⟨e1, e2, e3, e4⟩, e5⟩ := heq
    have hsnd : (((LineSourceModel.sigma_keV m c).zip
        (drawList (fun s l => rs.poisson s l) s
          (LineSourceModel.line_lam m c)).1).map (fun cl => cl.2)) =
        (drawList (fun s l => rs.poisson s l) s
          (LineSourceModel.line_lam m c)).1 := by
      refine List.map_snd_zip _ _ ?_
      rw [hcntlen, LineSourceModel.sigma_keV, List.length_map]
      exact hsig
    have hloop := line_broaden_loop_spec rs
      ((LineSourceModel.sigma_keV m c).zip
        (drawList (fun s l => rs.poisson s l) s
          (LineSourceModel.line_lam m c)).1)
      (List.replicate (drawList (fun s l => rs.poisson s l) s
        (LineSourceModel.line_lam m c)).1.sum m.e0)
      0 (drawList (fun s l => rs.poisson s l) s
        (LineSourceModel.line_lam m c)).2
      (by rw [hsnd]; simp)
    refine ⟨?_, ?_, ?_, ?_, ?_⟩
    · rw [← e2, ← e4, sum_filter_pos, List.length_map, hloop]
      simp
    · rw [← e3, List.length_map, hcntlen]
    · rw [← e2, ← e3, count_true_map]
    · rw [← e1, ← e3]
    · intro k hk
      rw [← e2] at hk
      have := List.of_mem_filter hk
      simpa using this

/-- Counting generator: the state is the number of draws made so far;
`poisson` returns the current state as the count. -/
def rsCount : RandomSource ℕ where
  poisson := fun s _ => (s, s + 1)
  uniform := fun s => (1 / 2, s + 1)
  normal := fun s _ => (0, s + 1)
  choice := fun s _ => (0, s + 1)

/-- Degenerate float oracle; `log10`/`exp10` are the identity (monotone
with identity roundtrip), `rpow` is multiplication, `ln` the identity. -/
def opsId : FloatOps where
  log10 := id
  exp10 := id
  rpow := fun a b => a * b
  ln := id

/-- Concrete power-law model for witnesses: `e0 = 1`, `[emin, emax] = [1, 2]`,
constant index 1. -/
def mPL : PowerLawSourceModelState :=
  { e0 := 1, emin := 1, emax := 2, alpha := some 1, spectral_norm := 1,
    scale_factor := 1 }

/-- Two-sample power-law chunk. -/
def cPL : PLChunk := { emission := [1, 1], alpha_field := [] }

/-- Concrete line model for witnesses: unbroadened line at 3 keV. -/
def mLine : LineSourceModelState :=
  { e0 := 3, sigma := .noSigma, spectral_norm := 1, scale_factor := 1,
    clight := 1, gx := [], gcdf := [] }

/-- Two-sample line chunk. -/
def cLine : LineChunk := { emission := [2, 5], sigma_field := [0, 0] }

/-- Mock spectral table: flat two-bin continuum `[1, 1]` per sample, no
metal or trace-element lines. -/
def oracleSpec1 : List ℚ → Option (List ℚ) → Option Mat × Option Mat × Option (List Mat) :=
  fun kTs _ => (some (kTs.map (fun _ => [1, 1])), none, none)

/-- Concrete thermal model for witnesses: two linear bins on `[1, 3]` keV,
constant metallicity, no trace elements, no density or nH cuts. -/
def mThermal : ThermalSourceModelState :=
  { spectral_model := oracleSpec1
    ebins := [1, 2, 3], de := [1, 1], emid := [3/2, 5/2]
    Zmet := some (3/10), var_elem := [], Zconvert := 1, mconvert := []
    max_density := none, kT_min := 0, kT_max := 100
    nh_field := false, nH_min := 0, nH_max := 0
    h_fraction := some (74/100), method := "invert_cdf"
    spectral_norm := 1, nei := false, fix_norm := false }

/-- Three-sample thermal chunk, all samples eligible under `mThermal`. -/
def cThermal : ThermalChunk :=
  { temperature := [1, 2, 3], density := [1, 1, 1]
    emission_measure := [1, 10, 100], nH := [0, 0, 0], h_fraction := [1, 1, 1]
    metallicity := [0, 0, 0], metallicity_is_Zsun := true
    elem_fields := [], elem_is_Zsun := [] }

/-- Thermal model whose spectral binning has three channels, used to
exhibit the empty-filter spectrum-mode shape bug: every sample fails the
density cut (`max_density = 0`). -/
def mC3 : ThermalSourceModelState :=
  { spectral_model := fun kTs _ => (some (kTs.map (fun _ => [1, 1, 1])), none, none)
    ebins := [1, 2, 3, 4], de := [1, 1, 1], emid := [3/2, 5/2, 7/2]
    Zmet := some 1, var_elem := [], Zconvert := 1, mconvert := []
    max_density := some 0, kT_min := 0, kT_max := 100
    nh_field := false, nH_min := 0, nH_max := 0
    h_fraction := some 1, method := "invert_cdf"
    spectral_norm := 1, nei := false, fix_norm := false }

/-- Two-sample chunk for the empty-filter scenario (densities above the
cut). -/
def cC3 : ThermalChunk :=
  { temperature := [1, 2], density := [1, 1]
    emission_measure := [1, 1], nH := [0, 0], h_fraction := [1, 1]
    metallicity := [0, 0], metallicity_is_Zsun := true
    elem_fields := [], elem_is_Zsun := [] }

/-- The mock spectral table of `mThermal` obeys the collaborator shape
contract. -/
theorem oracleSpec1_shape : SpectralShapeOK mThermal := by
  intro kTs cnH
  refine ⟨?_, ?_, ?_⟩
  · intro cs hcs
    have h1 : (mThermal.spectral_model kTs cnH).1 =
        some (kTs.map (fun _ => [1, 1])) := rfl
    rw [h1, Option.some.injEq] at hcs
    subst hcs
    constructor
    · simp [ThermalSourceModelState.nchan]
    · intro row hrow
      obtain ⟨x, hx, rfl⟩ := List.mem_map.mp hrow
      rfl
  · intro ms hms
    have h1 : (mThermal.spectral_model kTs cnH).2.1 = none := rfl
    rw [h1] at hms
    exact absurd hms (by simp)
  · intro vs V hvs
    have h1 : (mThermal.spectral_model kTs cnH).2.2 = none := rfl
    rw [h1] at hvs
    exact fun _ => absurd hvs (by simp)

/-! ## C1: photon-population invariants of the photons mode -/

section
attribute [local semireducible] Rat.mul Rat.add Rat.sub Rat.inv

/-- C1 counterexample: the power-law engine returns the boolean
`active_cells` mask (length = number of chunk samples) as its third
component, not an index list; here the chunk has two samples, one of them
with photon count zero, so the returned third component has length 2
while only one sample has a positive count. -/
theorem pl_active_mask_counterexample :
    PowerLawSourceModel.process_data opsId mPL rsCount .photons cPL [] 0 =
      (some (.photons 1 [1] [false, true] [1]), 3) ∧
    ([false, true] : List Bool).length ≠
      ([0, 1] : List ℕ).countP (fun n => decide (0 < n)) := by
  exact ⟨rfl, by decide⟩

end

/-- C1 (amended): in every successful photons-mode call, the returned
per-active-sample counts sum to the flat energy-array length, for all
three engines; for the thermal engine the returned index array has one
entry per positive-count sample (and `ncells` equals its length); for the
power-law and line engines the third component is the boolean active-cell
mask over the whole chunk, whose true-count equals the number of
positive-count samples.  The thermal part is stated for every initial
buffer capacity `cap0 > 0`; the source's `process_data` is the
`cap0 = 10^7` instance (first conjunct). -/
theorem photons_population_invariants {σ : Type} (cap0 : ℕ) (ops : FloatOps)
    (tm : ThermalSourceModelState) (pm : PowerLawSourceModelState)
    (lm : LineSourceModelState) (rs : RandomSource σ) (tc : ThermalChunk)
    (pc : PLChunk) (lc : LineChunk) (emid ebins : List ℚ) (s : σ)
    (hcap : 0 < cap0) (hwf : ChunkWF tm tc) (hshape : SpectralShapeOK tm)
    (hmethod : tm.method = "invert_cdf" ∨ tm.method = "accept_reject")
    (halpha : (PowerLawSourceModel.alphas pm pc).length = pc.emission.length)
    (hsig : lc.emission.length ≤ lc.sigma_field.length) :
    (ThermalSourceModel.process_data ops tm rs .photons tc s =
      ThermalSourceModel.process_data_cap 10000000 ops tm rs .photons tc s) ∧
    (∀ nc cnts idxs ee s',
      ThermalSourceModel.process_data_cap cap0 ops tm rs .photons tc s =
        (some (.photons nc cnts idxs ee), s') →
      cnts.sum = ee.length ∧ idxs.length = cnts.length ∧ nc = idxs.length ∧
      (∀ k ∈ cnts, 0 < k)) ∧
    (∀ nc cnts active ee s',
      PowerLawSourceModel.process_data ops pm rs .photons pc emid s =
        (some (.photons nc cnts active ee), s') →
      cnts.sum = ee.length ∧ active.length = pc.emission.length ∧
      active.count true = cnts.length ∧ nc = active.count true ∧
      (∀ k ∈ cnts, 0 < k)) ∧
    (∀ nc cnts active ee s',
      LineSourceModel.process_data lm rs .photons lc ebins s =
        (some (.photons nc cnts active ee), s') →
      cnts.sum = ee.length ∧ active.length = lc.emission.length ∧
      active.count true = cnts.length ∧ nc = active.count true ∧
      (∀ k ∈ cnts, 0 < k)) :=
  ⟨rfl,
    thermal_photons_population cap0 ops tm rs tc s hcap hwf hshape hmethod,
    pl_photons_population ops pm rs pc emid s halpha,
    line_photons_population lm rs lc ebins s hsig⟩

section
attribute [local semireducible] Rat.mul Rat.add Rat.sub Rat.inv

/-- Witness for C1 at the concrete models (`cap0 = 4`), using the
concrete photons-mode outputs of the three engines. -/
theorem photons_population_invariants_witness :
    (([1, 2] : List ℕ).sum = ([2, 2, 2] : List ℚ).length ∧
      ([1, 2] : List ℕ).length = ([1, 2] : List ℕ).length ∧
      (2 : ℕ) = ([1, 2] : List ℕ).length) ∧
    (([1] : List ℕ).sum = ([1] : List ℚ).length ∧
      ([false, true] : List Bool).length = cPL.emission.length ∧
      ([false, true] : List Bool).count true = ([1] : List ℕ).length ∧
      (1 : ℕ) = ([false, true] : List Bool).count true) ∧
    (([1] : List ℕ).sum = ([3] : List ℚ).length ∧
      ([false, true] : List Bool).length = cLine.emission.length ∧
      ([false, true] : List Bool).count true = ([1] : List ℕ).length ∧
      (1 : ℕ) = ([false, true] : List Bool).count true) := by
  obtain ⟨-, ht, hp, hl⟩ := photons_population_invariants 4 opsId mThermal mPL
    mLine rsCount cThermal cPL cLine [] [] 0 (by norm_num)
    ⟨rfl, rfl, rfl, rfl, rfl, rfl, by intro f hf; simp [cThermal] at hf⟩
    oracleSpec1_shape (Or.inl rfl) rfl (by simp [cLine])
  have h1 := ht 2 [1, 2] [1, 2] [2, 2, 2] 6 rfl
  have h2 := hp 1 [1] [false, true] [1] 3 rfl
  have h3 := hl 1 [1] [false, true] [3] 2 rfl
  exact ⟨⟨h1.1, h1.2.1, h1.2.2.1⟩, ⟨h2.1, h2.2.1, h2.2.2.1, h2.2.2.2.1⟩,
    ⟨h3.1, h3.2.1, h3.2.2.1, h3.2.2.2.1⟩⟩

end

/-! ## C3: empty-filter results per mode -/

/-- C3: with every sample filtered out (densities above `max_density = 0`)
and a three-channel spectral binning, the spectrum mode returns
`np.zeros(orig_shape)` — a zero array of length 2 (the chunk size) — and
not a zero spectrum of the expected `nchan = 3` channels; `make_spectrum`
would then raise on `spec += process_data("spectrum", chunk)`.  This
evaluates the code at the failing input. -/
theorem thermal_empty_filter_spectrum_shape :
    ThermalSourceModel.process_data opsId mC3 rsCount .spectrum cC3 0 =
      (some (.arr [0, 0]), 0) ∧
    mC3.nchan = 3 ∧ cC3.temperature.length = 2 := ⟨rfl, rfl, rfl⟩

theorem sorted_le_head {l : List ℚ} (hs : l.Pairwise (· ≤ ·)) (x : ℚ)
    (hx : x ∈ l) : l.getD 0 0 ≤ x := by
  cases l with
  | nil => simp at hx
  | cons a t =>
    rcases List.mem_cons.mp hx with rfl | hx
    · simp
    · simpa using (List.pairwise_cons.mp hs).1 x hx

theorem sorted_le_last {l : List ℚ} (hs : l.Pairwise (· ≤ ·)) (x : ℚ)
    (hx : x ∈ l) : x ≤ l.getD (l.length - 1) 0 := by
  induction l with
  | nil => simp at hx
  | cons a t ih =>
    cases t with
    | nil =>
      rcases List.mem_cons.mp hx with rfl | hx
      · simp
      · simp at hx
    | cons b u =>
      have hgd : (a :: b :: u).getD ((a :: b :: u).length - 1) 0 =
          (b :: u).getD ((b :: u).length - 1) 0 := by
        simp [List.getD_cons_succ]
      rw [hgd]
      rcases List.mem_cons.mp hx with rfl | hx
      · have hlast_mem : (b :: u).getD ((b :: u).length - 1) 0 ∈ b :: u :=
          getD_mem_of_lt _ _ _ (by simp)
        exact (List.pairwise_cons.mp hs).1 _ hlast_mem
      · exact ih (List.pairwise_cons.mp hs).2 hx

theorem getD_map_of_lt (f : ℚ → ℚ) (l : List ℚ) (i : ℕ) (h : i < l.length)
    (d d' : ℚ) : (l.map f).getD i d = f (l.getD i d') := by
  rw [List.getD_eq_getElem _ d (by simpa using h), List.getD_eq_getElem _ d' h]
  simp

theorem zipWith_add_zero_left (c : ℕ) (a : List ℚ) (h : a.length = c) :
    List.zipWith (· + ·) (List.replicate c 0) a = a := by
  induction a generalizing c with
  | nil => simp
  | cons x t ih =>
    cases c with
    | zero => simp at h
    | succ k =>
      simp only [List.replicate_succ, List.zipWith_cons_cons, zero_add]
      rw [ih k (by simpa using h)]

theorem zipWith_add_zero_right (c : ℕ) (a : List ℚ) (h : a.length = c) :
    List.zipWith (· + ·) a (List.replicate c 0) = a := by
  induction a generalizing c with
  | nil => simp
  | cons x t ih =>
    cases c with
    | zero => simp at h
    | succ k =>
      simp only [List.replicate_succ, List.zipWith_cons_cons, add_zero]
      rw [ih k (by simpa using h)]

theorem madd_zeroM_left {A : Mat} {r c : ℕ} (hA : MatShape A r c) :
    madd (zeroM r c) A = A := by
  obtain ⟨h1, h2⟩ := hA
  subst h1
  induction A with
  | nil => rfl
  | cons row t ih =>
    simp only [List.length_cons, zeroM, List.replicate_succ, madd,
      List.zipWith_cons_cons]
    rw [List.cons.injEq]
    constructor
    · exact zipWith_add_zero_left c row (h2 row (List.mem_cons_self _ _))
    · exact ih (fun q hq => h2 q (List.mem_cons_of_mem _ hq))

theorem madd_zeroM_right {A : Mat} {r c : ℕ} (hA : MatShape A r c) :
    madd A (zeroM r c) = A := by
  obtain ⟨h1, h2⟩ := hA
  subst h1
  induction A with
  | nil => rfl
  | cons row t ih =>
    simp only [List.length_cons, zeroM, List.replicate_succ, madd,
      List.zipWith_cons_cons]
    rw [List.cons.injEq]
    constructor
    · exact zipWith_add_zero_right c row (h2 row (List.mem_cons_self _ _))
    · exact ih (fun q hq => h2 q (List.mem_cons_of_mem _ hq))

theorem zipWith_add_assoc (a b c : List ℚ) :
    List.zipWith (· + ·) (List.zipWith (· + ·) a b) c =
      List.zipWith (· + ·) a (List.zipWith (· + ·) b c) := by
  induction a generalizing b c with
  | nil => simp
  | cons x t ih =>
    cases b with
    | nil => simp
    | cons y u =>
      cases c with
      | nil => simp
      | cons z v =>
        simp only [List.zipWith_cons_cons, add_assoc]
        rw [ih u v]

theorem madd_assoc (A B C : Mat) :
    madd (madd A B) C = madd A (madd B C) := by
  induction A generalizing B C with
  | nil => simp [madd]
  | cons ra t ih =>
    cases B with
    | nil => simp [madd]
    | cons rb u =>
      cases C with
      | nil => simp [madd]
      | cons rc v =>
        simp only [madd, List.zipWith_cons_cons]
        rw [List.cons.injEq]
        constructor
        · exact zipWith_add_assoc ra rb rc
        · exact ih u v

theorem foldl_madd_pull (L : List (List ℚ × Mat)) :
    ∀ X A : Mat,
      madd X (L.foldl (fun acc zv => madd acc (scaleRows zv.1 zv.2)) A) =
        L.foldl (fun acc zv => madd acc (scaleRows zv.1 zv.2)) (madd X A) := by
  induction L with
  | nil => intro X A; rfl
  | cons p t ih =>
    intro X A
    simp only [List.foldl_cons]
    rw [ih X (madd A (scaleRows p.1 p.2)), ← madd_assoc]

/-! ## C2: per-batch spectrum composition -/

/-- C2: batches are the contiguous `(ibegin, iend)` slices of at most 100
eligible samples, tiling the eligible range in order; and the batch
spectrum composed by the source (`tot_spec_batch`, used by every mode of
`process_data`) equals the spec formula
`continuum + metallicity·metal_shape + Σ_elem abundance·elem_shape`
(`spec_composed_spectrum`) on the spectral-table outputs. -/
theorem thermal_spectrum_composition (m : ThermalSourceModelState)
    (hshape : SpectralShapeOK m) :
    (∀ n : ℕ, ∀ rg ∈ chunkedRanges 0 n,
      rg.1 < rg.2 ∧ rg.2 ≤ n ∧ rg.2 - rg.1 ≤ 100) ∧
    (∀ n : ℕ,
      ((chunkedRanges 0 n).map (fun rg => List.range' rg.1 (rg.2 - rg.1))).flatten =
        List.range' 0 n) ∧
    (∀ (kTs : List ℚ) (cnH : Option (List ℚ)) (mzs : List ℚ)
        (ezs : List (List ℚ)),
      kTs.length ≤ mzs.length → ezs.length = m.var_elem.length →
      ThermalSourceModel.tot_spec_batch m kTs cnH mzs ezs =
        spec_composed_spectrum kTs.length m.nchan
          (m.spectral_model kTs cnH).1 (m.spectral_model kTs cnH).2.1
          ((m.spectral_model kTs cnH).2.2.getD []) mzs ezs) := by
  refine ⟨?_, ?_, ?_⟩
  · intro n rg hrg
    have := chunkedRanges_mem 0 n rg hrg
    exact ⟨this.2.1, this.2.2.1, this.2.2.2⟩
  · intro n
    rw [chunkedRanges_flatten 0 n (by omega)]
    simp
  · intro kTs cnH mzs ezs hmz hezlen
    obtain ⟨hc, hm, hv⟩ := hshape kTs cnH
    simp only [ThermalSourceModel.tot_spec_batch, spec_composed_spectrum]
    have hbase :
        (match (m.spectral_model kTs cnH).1 with
          | some cs => madd (zeroM kTs.length m.nchan) cs
          | none => zeroM kTs.length m.nchan) =
        (match (m.spectral_model kTs cnH).1 with
          | some C => C
          | none => zeroM kTs.length m.nchan) := by
      cases hcs : (m.spectral_model kTs cnH).1 with
      | none => rfl
      | some cs => simpa using madd_zeroM_left (hc cs hcs)
    rw [hbase]
    have hbase_shape : MatShape
        (match (m.spectral_model kTs cnH).1 with
          | some C => C
          | none => zeroM kTs.length m.nchan) kTs.length m.nchan := by
      cases hcs : (m.spectral_model kTs cnH).1 with
      | none => simpa using zeroM_shape kTs.length m.nchan
      | some cs => simpa using hc cs hcs
    have hmet_shape : MatShape
        (match (m.spectral_model kTs cnH).2.1 with
          | some M => madd
              (match (m.spectral_model kTs cnH).1 with
                | some C => C
                | none => zeroM kTs.length m.nchan) (scaleRows mzs M)
          | none =>
              match (m.spectral_model kTs cnH).1 with
                | some C => C
                | none => zeroM kTs.length m.nchan) kTs.length m.nchan := by
      cases hms : (m.spectral_model kTs cnH).2.1 with
      | none => simpa using hbase_shape
      | some ms =>
        simpa using madd_shape hbase_shape (scaleRows_shape (hm ms hms) hmz)
    split
    · next hvar =>
      cases hvs : (m.spectral_model kTs cnH).2.2 with
      | none =>
        simp only [Option.getD_none]
        rw [show ezs.zip ([] : List Mat) = [] by simp]
        rfl
      | some vs =>
        simp only [Option.getD_some]
        rw [foldl_madd_pull]
        rw [madd_zeroM_right hmet_shape]
    · next hvar =>
      have hez0 : ezs = [] := by
        have : m.var_elem.length = 0 := by omega
        rw [this] at hezlen
        exact List.length_eq_zero.mp hezlen
      rw [hez0]
      simp

/-- Witness for C2 at the concrete thermal model: the single batch
`(0, 3)` of three eligible samples, and the composition identity at a
two-sample batch. -/
theorem thermal_spectrum_composition_witness :
    (((0, 3) : ℕ × ℕ).1 < ((0, 3) : ℕ × ℕ).2 ∧ ((0, 3) : ℕ × ℕ).2 ≤ 3 ∧
      ((0, 3) : ℕ × ℕ).2 - ((0, 3) : ℕ × ℕ).1 ≤ 100) ∧
    (((chunkedRanges 0 3).map (fun rg => List.range' rg.1 (rg.2 - rg.1))).flatten =
      List.range' 0 3) ∧
    (ThermalSourceModel.tot_spec_batch mThermal [1, 2] none [1, 1] [] =
      spec_composed_spectrum ([1, 2] : List ℚ).length mThermal.nchan
        (mThermal.spectral_model [1, 2] none).1
        (mThermal.spectral_model [1, 2] none).2.1
        ((mThermal.spectral_model [1, 2] none).2.2.getD []) [1, 1] []) := by
  obtain ⟨ha, hb, hc⟩ := thermal_spectrum_composition mThermal oracleSpec1_shape
  exact ⟨ha 3 (0, 3) (by decide), hb 3, hc [1, 2] none [1, 1] [] (by decide) rfl⟩

/-! ## C4: inverse-CDF energies stay within the spectral binning -/

/-- C4: with the invert_cdf method, every energy in the photons-mode
result lies within `[ebins[0], ebins[-1]]`; for a log binning the buffer
holds log-energies within `[log10 ebins[0], log10 ebins[-1]]` and the
final exponentiation maps them back into the energy band.  The
hypotheses are the spectral-binning invariant (§3: edges nondecreasing,
`nchan + 1` edges) and the monotonicity/roundtrip contract of the float
`log10`/`10**` pair. -/
theorem thermal_invert_cdf_energy_bounds {σ : Type} (cap0 : ℕ) (ops : FloatOps)
    (m : ThermalSourceModelState) (rs : RandomSource σ) (c : ThermalChunk)
    (s : σ) (hcap : 0 < cap0) (hwf : ChunkWF m c) (hshape : SpectralShapeOK m)
    (hmethod : m.method = "invert_cdf")
    (hsorted : m.ebins.Pairwise (· ≤ ·))
    (helen : m.ebins.length = m.nchan + 1)
    (hlog : ∀ a b : ℚ, a ≤ b → ops.log10 a ≤ ops.log10 b)
    (hexp : ∀ a b : ℚ, a ≤ b → ops.exp10 a ≤ ops.exp10 b)
    (hrt : ∀ e ∈ m.ebins, ops.exp10 (ops.log10 e) = e) :
    ∀ nc cnts idxs ee s',
      ThermalSourceModel.process_data_cap cap0 ops m rs .photons c s =
        (some (.photons nc cnts idxs ee), s') →
      ∀ e ∈ ee, m.ebins.getD 0 0 ≤ e ∧
        e ≤ m.ebins.getD (m.ebins.length - 1) 0 := by
  have hBElen : (ThermalSourceModelState.bin_edges ops m).length = m.nchan + 1 := by
    rw [ThermalSourceModelState.bin_edges]
    split <;> simp [helen]
  have hBEsorted : (ThermalSourceModelState.bin_edges ops m).Pairwise (· ≤ ·) := by
    rw [ThermalSourceModelState.bin_edges]
    split
    · exact hsorted
    · exact List.pairwise_map.mpr (hsorted.imp (fun h => hlog _ _ h))
  have hBEbounds : ∀ f ∈ ThermalSourceModelState.bin_edges ops m,
      (ThermalSourceModelState.bin_edges ops m).getD 0 0 ≤ f ∧
      f ≤ (ThermalSourceModelState.bin_edges ops m).getD
        ((ThermalSourceModelState.bin_edges ops m).length - 1) 0 :=
    fun f hf => ⟨sorted_le_head hBEsorted f hf, sorted_le_last hBEsorted f hf⟩
  have hsampleP : ∀ prow cprow cn s0, cprow.length = m.nchan + 1 → cn ≠ 0 →
      (ThermalSourceModel.sample_cell_e ops m rs prow cprow cn s0).1.length = cn ∧
      (∀ e ∈ (ThermalSourceModel.sample_cell_e ops m rs prow cprow cn s0).1,
        (ThermalSourceModelState.bin_edges ops m).getD 0 0 ≤ e ∧
        e ≤ (ThermalSourceModelState.bin_edges ops m).getD
          ((ThermalSourceModelState.bin_edges ops m).length - 1) 0) := by
    intro prow cprow cn s0 hcpl hcz
    refine ⟨sample_cell_e_length ops m rs prow cprow cn s0 (Or.inl hmethod), ?_⟩
    intro e he
    rw [ThermalSourceModel.sample_cell_e, if_pos hmethod] at he
    simp only [List.mem_map] at he
    obtain ⟨u, hu, rfl⟩ := he
    refine interp_bounds u _ _ cprow (ThermalSourceModelState.bin_edges ops m)
      ?_ ?_ hBEbounds
    · intro hnil
      rw [hnil] at hcpl
      simp at hcpl
    · rw [hcpl, hBElen]
  intro nc cnts idxs ee s' heq
  rw [ThermalSourceModel.process_data_cap] at heq
  by_cases h0 : c.temperature.length = 0
  · rw [if_pos h0] at heq
    simp at heq
  · rw [if_neg h0] at heq
    by_cases hn : (ThermalSourceModel.cut_mask m c).count true = 0
    · rw [if_pos hn] at heq
      simp at heq
    · rw [if_neg hn] at heq
      simp only [Option.some.injEq, Prod.mk.injEq, TResult.photons.injEq] at heq
      obtain ⟨⟨e1, e2, e3, e4⟩, e5⟩ := heq
      have hcut : (ThermalSourceModel.cut_mask m c).length =
          c.temperature.length := cut_mask_length m c hwf
      have hkTm : (maskList (ThermalSourceModel.cut_mask m c) c.temperature).length =
          (ThermalSourceModel.cut_mask m c).count true :=
        maskList_length _ _ hcut
      set F := (chunkedRanges 0 ((ThermalSourceModel.cut_mask m c).count true)).foldl
          (ThermalSourceModel.process_batch ops m rs .photons
            (maskList (ThermalSourceModel.cut_mask m c) c.temperature)
            (if m.nh_field then
              some (maskList (ThermalSourceModel.cut_mask m c) c.nH) else none)
            (ThermalSourceModel.cell_nrm m c (ThermalSourceModel.cut_mask m c))
            (ThermalSourceModel.metalZ m c (ThermalSourceModel.cut_mask m c))
            (ThermalSourceModel.elemZ m c (ThermalSourceModel.cut_mask m c))
            (trueIdxs (ThermalSourceModel.cut_mask m c)))
          ⟨List.replicate ((ThermalSourceModel.cut_mask m c).count true) 0,
            List.replicate cap0 0, 0, List.replicate c.temperature.length 0,
            List.replicate m.nchan 0, s⟩ with hFdef
      obtain ⟨g1, g2, g3, g4⟩ := photons_batches_spec ops m rs
        (fun v => (ThermalSourceModelState.bin_edges ops m).getD 0 0 ≤ v ∧
          v ≤ (ThermalSourceModelState.bin_edges ops m).getD
            ((ThermalSourceModelState.bin_edges ops m).length - 1) 0)
        hsampleP hshape
        (maskList (ThermalSourceModel.cut_mask m c) c.temperature)
        (if m.nh_field then some (maskList (ThermalSourceModel.cut_mask m c) c.nH)
          else none)
        (ThermalSourceModel.cell_nrm m c (ThermalSourceModel.cut_mask m c))
        (ThermalSourceModel.metalZ m c (ThermalSourceModel.cut_mask m c))
        (ThermalSourceModel.elemZ m c (ThermalSourceModel.cut_mask m c))
        (trueIdxs (ThermalSourceModel.cut_mask m c))
        ((ThermalSourceModel.cut_mask m c).count true)
        (le_of_eq hkTm.symm)
        (le_of_eq (cell_nrm_length m c hwf).symm)
        (le_of_eq (metalZ_length m c hwf).symm)
        (fun zj hzj => le_of_eq (elemZ_mem_length m c hwf zj hzj).symm)
        0
        ⟨List.replicate ((ThermalSourceModel.cut_mask m c).count true) 0,
          List.replicate cap0 0, 0, List.replicate c.temperature.length 0,
          List.replicate m.nchan 0, s⟩
        (by omega) (by simp) (by simp) (by simp) (by simp) (by simpa using hcap)
        (by simp)
      rw [← hFdef] at g1 g2 g3 g4
      intro e he
      rw [← e4] at he
      by_cases hlin : iscloseAll m.de
      · have hbl : m.binscale_is_log = false := by
          rw [ThermalSourceModelState.binscale_is_log, hlin]
          rfl
        rw [hbl] at he
        simp only [Bool.false_eq_true, if_false] at he
        have hthis := g4 e he
        have hlo0 : (ThermalSourceModelState.bin_edges ops m).getD 0 0 =
            m.ebins.getD 0 0 := by
          rw [ThermalSourceModelState.bin_edges, if_pos hlin]
        have hhi0 : (ThermalSourceModelState.bin_edges ops m).getD
            ((ThermalSourceModelState.bin_edges ops m).length - 1) 0 =
            m.ebins.getD (m.ebins.length - 1) 0 := by
          rw [ThermalSourceModelState.bin_edges, if_pos hlin]
        rwa [hlo0, hhi0] at hthis
      · have hfalse : iscloseAll m.de = false := by
          revert hlin
          cases iscloseAll m.de <;> simp
        have hbl : m.binscale_is_log = true := by
          rw [ThermalSourceModelState.binscale_is_log, hfalse]
          rfl
        rw [hbl] at he
        simp only [if_true] at he
        obtain ⟨v, hv, rfl⟩ := List.mem_map.mp he
        have hPv := g4 v hv
        have hlo : (ThermalSourceModelState.bin_edges ops m).getD 0 0 =
            ops.log10 (m.ebins.getD 0 0) := by
          rw [ThermalSourceModelState.bin_edges, if_neg hlin]
          exact getD_map_of_lt _ _ _ (by omega) _ _
        have hhi : (ThermalSourceModelState.bin_edges ops m).getD
            ((ThermalSourceModelState.bin_edges ops m).length - 1) 0 =
            ops.log10 (m.ebins.getD (m.ebins.length - 1) 0) := by
          rw [ThermalSourceModelState.bin_edges, if_neg hlin]
          rw [show ((m.ebins.map ops.log10).length - 1) = m.ebins.length - 1 by simp]
          exact getD_map_of_lt _ _ _ (by omega) _ _
        rw [hlo, hhi] at hPv
        constructor
        · calc m.ebins.getD 0 0 = ops.exp10 (ops.log10 (m.ebins.getD 0 0)) :=
              (hrt _ (getD_mem_of_lt _ _ _ (by omega))).symm
            _ ≤ ops.exp10 v := hexp _ _ hPv.1
        · calc ops.exp10 v ≤
              ops.exp10 (ops.log10 (m.ebins.getD (m.ebins.length - 1) 0)) :=
              hexp _ _ hPv.2
            _ = m.ebins.getD (m.ebins.length - 1) 0 :=
              hrt _ (getD_mem_of_lt _ _ _ (by omega))

section
attribute [local semireducible] Rat.mul Rat.add Rat.sub Rat.inv

/-- Witness for C4 at the concrete thermal model: the sampled energy 2
lies within the binning `[1, 3]`. -/
theorem thermal_invert_cdf_energy_bounds_witness :
    mThermal.ebins.getD 0 0 ≤ (2 : ℚ) ∧
    (2 : ℚ) ≤ mThermal.ebins.getD (mThermal.ebins.length - 1) 0 := by
  have h := thermal_invert_cdf_energy_bounds 4 opsId mThermal rsCount cThermal 0
    (by norm_num)
    ⟨rfl, rfl, rfl, rfl, rfl, rfl, by intro f hf; simp [cThermal] at hf⟩
    oracleSpec1_shape rfl (by decide) rfl
    (fun a b hab => hab) (fun a b hab => hab) (fun e _ => rfl)
    2 [1, 2] [1, 2] [2, 2, 2] 6 rfl
  exact h 2 (by simp)

end

/-! ## C8: energy-buffer growth -/

/-- C8: the capacity-doubling loop leaves a sufficient capacity
untouched, doubles repeatedly (to `cap·2^m` with the least sufficient
`m`) until the write fits; a grown-and-written buffer preserves the
already-written prefix exactly and has room for the write; and the
photons-mode result's energy array is truncated to exactly the total
number of photons drawn. -/
theorem buffer_growth_spec {σ : Type} (cap0 : ℕ) (ops : FloatOps)
    (m : ThermalSourceModelState) (rs : RandomSource σ) (c : ThermalChunk)
    (s : σ) (hcap : 0 < cap0) (hwf : ChunkWF m c) (hshape : SpectralShapeOK m)
    (hmethod : m.method = "invert_cdf" ∨ m.method = "accept_reject") :
    (∀ cap need : ℕ, 0 < cap →
      (need ≤ cap → growCap cap need = cap) ∧
      need ≤ growCap cap need ∧
      ∃ mm, growCap cap need = cap * 2 ^ mm ∧
        (0 < mm → cap * 2 ^ (mm - 1) < need)) ∧
    (∀ (buf es : List ℚ) (ei : ℕ), ei ≤ buf.length → 0 < buf.length →
      (ThermalSourceModel.write_cell buf ei es).length =
        growCap buf.length (ei + es.length) ∧
      ei + es.length ≤ (ThermalSourceModel.write_cell buf ei es).length ∧
      (ThermalSourceModel.write_cell buf ei es).take ei = buf.take ei) ∧
    (∀ nc cnts idxs ee s',
      ThermalSourceModel.process_data_cap cap0 ops m rs .photons c s =
        (some (.photons nc cnts idxs ee), s') →
      ee.length = cnts.sum) := by
  refine ⟨?_, ?_, ?_⟩
  · intro cap need hc
    exact ⟨growCap_eq_of_le cap need, le_growCap cap need hc,
      growCap_doubling cap need hc⟩
  · intro buf es ei h1 h2
    obtain ⟨w1, w2, w3, w4, w5⟩ := write_cell_spec buf es ei h1 h2
    exact ⟨w1, w3, w4⟩
  · intro nc cnts idxs ee s' heq
    exact (thermal_photons_population cap0 ops m rs c s hcap hwf hshape hmethod
      nc cnts idxs ee s' heq).1.symm

section
attribute [local semireducible] Rat.mul Rat.add Rat.sub Rat.inv

/-- Witness for C8 at concrete capacities, buffers and the concrete
thermal call. -/
theorem buffer_growth_spec_witness :
    growCap 4 3 = 4 ∧ (9 : ℕ) ≤ growCap 4 9 ∧
    (ThermalSourceModel.write_cell [1, 2] 1 [5, 6, 7]).length =
      growCap (([1, 2] : List ℚ)).length (1 + (([5, 6, 7] : List ℚ)).length) ∧
    1 + (([5, 6, 7] : List ℚ)).length ≤
      (ThermalSourceModel.write_cell [1, 2] 1 [5, 6, 7]).length ∧
    (ThermalSourceModel.write_cell [1, 2] 1 [5, 6, 7]).take 1 =
      ([1, 2] : List ℚ).take 1 ∧
    ([2, 2, 2] : List ℚ).length = ([1, 2] : List ℕ).sum := by
  obtain ⟨ha, hb, hc⟩ := buffer_growth_spec 4 opsId mThermal rsCount cThermal 0
    (by norm_num)
    ⟨rfl, rfl, rfl, rfl, rfl, rfl, by intro f hf; simp [cThermal] at hf⟩
    oracleSpec1_shape (Or.inl rfl)
  obtain ⟨b1, b2, b3⟩ := hb [1, 2] [5, 6, 7] 1 (by norm_num) (by norm_num)
  exact ⟨(ha 4 3 (by norm_num)).1 (by norm_num),
    (ha 4 9 (by norm_num)).2.1, b1, b2, b3,
    hc 2 [1, 2] [1, 2] [2, 2, 2] 6 rfl⟩

end

/-! ## C6: power-law `alpha == 1` exact-equality branch -/

/-- C6: in `PowerLawSourceModel.process_data` (photons and photon_field
modes) the per-sample normalization and inverse-CDF energies use the
logarithmic closed form exactly when the index equals 1 under exact
equality, and the general closed form for every other index value, with
no tolerance band; the photon_field mode returns exactly these per-sample
norms. -/
theorem pl_alpha_one_exact_branch {σ : Type} (ops : FloatOps)
    (m : PowerLawSourceModelState) (rs : RandomSource σ) (a em u : ℚ)
    (c : PLChunk) (emid : List ℚ) (s : σ) (ha : a ≠ 1) :
    PowerLawSourceModel.norm ops m 1 em =
      em * ops.rpow m.e0 1 * ops.ln (m.emax / m.emin) ∧
    PowerLawSourceModel.pl_cell_e ops m 1 [u] =
      [m.emin * ops.rpow (m.emax / m.emin) u] ∧
    PowerLawSourceModel.norm ops m a em =
      (ops.rpow m.emax (1 - a) - ops.rpow m.emin (1 - a)) *
        ops.rpow m.e0 a / (1 - a) * em ∧
    PowerLawSourceModel.pl_cell_e ops m a [u] =
      [ops.rpow (ops.rpow m.emin (1 - a) + u * PowerLawSourceModel.norm_fac ops m a)
        (1 / (1 - a))] ∧
    PowerLawSourceModel.process_data ops m rs .photon_field c emid s =
      (some (.arr (List.zipWith (fun a em => PowerLawSourceModel.norm ops m a em)
        (PowerLawSourceModel.alphas m c) c.emission)), s) := by
  refine ⟨?_, ?_, ?_, ?_, rfl⟩
  · simp [PowerLawSourceModel.norm, PowerLawSourceModel.norm_fac]
    ring
  · simp [PowerLawSourceModel.pl_cell_e]
  · simp [PowerLawSourceModel.norm, PowerLawSourceModel.norm_fac, ha]
    ring
  · simp [PowerLawSourceModel.pl_cell_e, ha]

/-- Witness for C6 at the concrete model `mPL` with `a = 2`. -/
theorem pl_alpha_one_exact_branch_witness :
    PowerLawSourceModel.norm opsId mPL 1 3 =
      3 * opsId.rpow mPL.e0 1 * opsId.ln (mPL.emax / mPL.emin) ∧
    PowerLawSourceModel.pl_cell_e opsId mPL 1 [1/2] =
      [mPL.emin * opsId.rpow (mPL.emax / mPL.emin) (1/2)] ∧
    PowerLawSourceModel.norm opsId mPL 2 3 =
      (opsId.rpow mPL.emax (1 - 2) - opsId.rpow mPL.emin (1 - 2)) *
        opsId.rpow mPL.e0 2 / (1 - 2) * 3 ∧
    PowerLawSourceModel.pl_cell_e opsId mPL 2 [1/2] =
      [opsId.rpow (opsId.rpow mPL.emin (1 - 2) + 1/2 * PowerLawSourceModel.norm_fac opsId mPL 2)
        (1 / (1 - 2))] ∧
    PowerLawSourceModel.process_data opsId mPL rsCount .photon_field cPL [] 0 =
      (some (.arr (List.zipWith (fun a em => PowerLawSourceModel.norm opsId mPL a em)
        (PowerLawSourceModel.alphas mPL cPL) cPL.emission)), 0) :=
  pl_alpha_one_exact_branch opsId mPL rsCount 2 3 (1/2) cPL [] 0 (by norm_num)

/-! ## C10: power-law energy_field has no `alpha == 2` guard -/

/-- C10: the energy_field mode of `PowerLawSourceModel.process_data`
applies the single closed form
`(emax^(2-α) - emin^(2-α)) · e0^α / (2-α) · emission` to every sample
with no special case for `α = 2`; there the divisor `2-α` is zero, and in
the `ℚ` embedding (division by zero gives 0) the value collapses to 0 for
every emission (numpy produces an inf/nan there). -/
theorem pl_energy_field_unguarded {σ : Type} (ops : FloatOps)
    (m : PowerLawSourceModelState) (rs : RandomSource σ) :
    (∀ c emid s, PowerLawSourceModel.process_data ops m rs .energy_field c emid s =
      (some (.arr (List.zipWith (fun a em => PowerLawSourceModel.energy_field_sample ops m a em)
        (PowerLawSourceModel.alphas m c) c.emission)), s)) ∧
    (∀ a em, PowerLawSourceModel.energy_field_sample ops m a em =
      (ops.rpow m.emax (2 - a) - ops.rpow m.emin (2 - a)) *
        (ops.rpow m.e0 a / (2 - a)) * em) ∧
    (∀ em, PowerLawSourceModel.energy_field_sample ops m 2 em =
      (ops.rpow m.emax 0 - ops.rpow m.emin 0) * (ops.rpow m.e0 2 / (2 - 2)) * em) ∧
    (∀ em, PowerLawSourceModel.energy_field_sample ops m 2 em = 0) := by
  refine ⟨fun c emid s => rfl, fun a em => rfl,
    fun em => by simp only [PowerLawSourceModel.energy_field_sample]; norm_num,
    fun em => by simp only [PowerLawSourceModel.energy_field_sample]; norm_num⟩

/-! ## C7: metallicity / trace-element unit handling at setup -/

/-- C7: during `setup_model`, a field-referenced metallicity (or
trace-element abundance) raises a fatal error iff its units are not among
dimensionless/empty/code_metallicity or Zsun; for the dimensionless/code
units the factor is the hydrogen atomic weight (`atomic_weights[1]`)
divided by the abundance-table-weighted metal atomic-weight sum (or the
single-element analog), and for Zsun units it is 1. -/
theorem setup_metallicity_units (atable aw : List ℚ) (melem : List ℕ)
    (n_elem : ℕ) (u : String) :
    (u = "dimensionless" ∨ u = "" ∨ u = "code_metallicity" →
      Zconvert_of_units atable aw melem u =
        Except.ok (aw.getD 1 0 /
          (melem.map (fun e => atable.getD e 0 * aw.getD e 0)).sum) ∧
      mconvert_of_units atable aw n_elem u =
        Except.ok (aw.getD 1 0 / (atable.getD n_elem 0 * aw.getD n_elem 0))) ∧
    (Zconvert_of_units atable aw melem "Zsun" = Except.ok 1 ∧
      mconvert_of_units atable aw n_elem "Zsun" = Except.ok 1) ∧
    (u ≠ "dimensionless" → u ≠ "" → u ≠ "code_metallicity" → u ≠ "Zsun" →
      (∃ e, Zconvert_of_units atable aw melem u = Except.error e) ∧
      (∃ e, mconvert_of_units atable aw n_elem u = Except.error e)) := by
  refine ⟨fun h => ?_, ⟨?_, ?_⟩, fun h1 h2 h3 h4 => ?_⟩
  · constructor <;> · simp only [Zconvert_of_units, mconvert_of_units, if_pos h]
  · simp [Zconvert_of_units]
  · simp [mconvert_of_units]
  · have hz : ¬(u = "dimensionless" ∨ u = "" ∨ u = "code_metallicity") := by
      simp [h1, h2, h3]
    constructor
    · exact ⟨_, by simp only [Zconvert_of_units]; rw [if_neg hz, if_neg h4]⟩
    · exact ⟨_, by simp only [mconvert_of_units]; rw [if_neg hz, if_neg h4]⟩

/-- Witness for C7: the theorem applied at the three unit classes. -/
theorem setup_metallicity_units_witness :
    (Zconvert_of_units [0, 1] [0, 1] [1] "code_metallicity" =
      Except.ok (([0, 1] : List ℚ).getD 1 0 /
        (([1] : List ℕ).map (fun e => ([0, 1] : List ℚ).getD e 0 * ([0, 1] : List ℚ).getD e 0)).sum) ∧
      mconvert_of_units [0, 1] [0, 1] 1 "code_metallicity" =
        Except.ok (([0, 1] : List ℚ).getD 1 0 /
          (([0, 1] : List ℚ).getD 1 0 * ([0, 1] : List ℚ).getD 1 0))) ∧
    (Zconvert_of_units [0, 1] [0, 1] [1] "Zsun" = Except.ok 1 ∧
      mconvert_of_units [0, 1] [0, 1] 1 "Zsun" = Except.ok 1) ∧
    ((∃ e, Zconvert_of_units [0, 1] [0, 1] [1] "Msun" = Except.error e) ∧
      (∃ e, mconvert_of_units [0, 1] [0, 1] 1 "Msun" = Except.error e)) := by
  obtain ⟨ha, hb, -⟩ := setup_metallicity_units [0, 1] [0, 1] [1] 1 "code_metallicity"
  obtain ⟨-, -, hc⟩ := setup_metallicity_units [0, 1] [0, 1] [1] 1 "Msun"
  exact ⟨ha (by simp), hb, hc (by simp) (by simp) (by simp) (by simp)⟩

/-! ## C9: determinism of `process_data` -/

/-- C9: two `process_data` calls with identical inputs and identical
per-instance generator state produce identical outputs for every mode and
all three engines.  In the embedding the generator state is the only
mutable input: `process_data` is a pure function of (model, mode, chunk,
state), so no state outside the model instance can influence the result. -/
theorem process_data_deterministic {σ : Type} (ops : FloatOps)
    (tm : ThermalSourceModelState) (pm : PowerLawSourceModelState)
    (lm : LineSourceModelState) (rs : RandomSource σ) (mode : Mode)
    (tc : ThermalChunk) (pc : PLChunk) (lc : LineChunk)
    (emid ebins : List ℚ) (s₁ s₂ : σ) (h : s₁ = s₂) :
    ThermalSourceModel.process_data ops tm rs mode tc s₁ =
      ThermalSourceModel.process_data ops tm rs mode tc s₂ ∧
    PowerLawSourceModel.process_data ops pm rs mode pc emid s₁ =
      PowerLawSourceModel.process_data ops pm rs mode pc emid s₂ ∧
    LineSourceModel.process_data lm rs mode lc ebins s₁ =
      LineSourceModel.process_data lm rs mode lc ebins s₂ := by
  subst h
  exact ⟨rfl, rfl, rfl⟩

/-- Witness for C9 at the concrete models, photons mode. -/
theorem process_data_deterministic_witness :
    ThermalSourceModel.process_data opsId mThermal rsCount .photons cThermal 0 =
      ThermalSourceModel.process_data opsId mThermal rsCount .photons cThermal 0 ∧
    PowerLawSourceModel.process_data opsId mPL rsCount .photons cPL [] 0 =
      PowerLawSourceModel.process_data opsId mPL rsCount .photons cPL [] 0 ∧
    LineSourceModel.process_data mLine rsCount .photons cLine [] 0 =
      LineSourceModel.process_data mLine rsCount .photons cLine [] 0 :=
  process_data_deterministic opsId mThermal mPL mLine rsCount .photons
    cThermal cPL cLine [] [] 0 0 rfl

/-! ## C5: linearity in the emission field -/

theorem sum_map_scale (k : ℚ) (l : List ℚ) :
    (l.map (fun x => k * x)).sum = k * l.sum := by
  induction l with
  | nil => simp
  | cons x t ih =>
    simp only [List.map_cons, List.sum_cons, ih]
    ring

theorem zipWith_map_right_scale (k : ℚ) (f : ℚ → ℚ → ℚ)
    (h : ∀ a b, f a (k * b) = k * f a b) :
    ∀ (as bs : List ℚ),
      List.zipWith f as (bs.map (fun x => k * x)) =
        (List.zipWith f as bs).map (fun x => k * x) := by
  intro as
  induction as with
  | nil => intro bs; simp
  | cons a t ih =>
    intro bs
    cases bs with
    | nil => simp
    | cons b u =>
      simp only [List.map_cons, List.zipWith_cons_cons, h a b, ih u]

theorem zipWith_map_left_scale (k : ℚ) (f : ℚ → ℚ → ℚ)
    (h : ∀ a b, f (k * a) b = k * f a b) :
    ∀ (as bs : List ℚ),
      List.zipWith f (as.map (fun x => k * x)) bs =
        (List.zipWith f as bs).map (fun x => k * x) := by
  intro as
  induction as with
  | nil => intro bs; simp
  | cons a t ih =>
    intro bs
    cases bs with
    | nil => simp
    | cons b u =>
      simp only [List.map_cons, List.zipWith_cons_cons, h a b, ih u]

theorem zipWith_scale_fun (k : ℚ) (f g : ℚ → ℚ → ℚ)
    (h : ∀ a b, g a b = k * f a b) :
    ∀ (as bs : List ℚ),
      List.zipWith g as bs = (List.zipWith f as bs).map (fun x => k * x) := by
  intro as
  induction as with
  | nil => intro bs; simp
  | cons a t ih =>
    intro bs
    cases bs with
    | nil => simp
    | cons b u =>
      simp only [List.map_cons, List.zipWith_cons_cons, h a b, ih u]

theorem map_scale_fun (k : ℚ) (f g : ℚ → ℚ) (h : ∀ a, g a = k * f a)
    (l : List ℚ) : l.map g = (l.map f).map (fun x => k * x) := by
  rw [List.map_map]
  exact List.map_congr_left (fun a _ => by rw [h a]; rfl)

theorem set_map_comm (f : ℚ → ℚ) :
    ∀ (l : List ℚ) (i : ℕ) (v : ℚ),
      (l.set i v).map f = (l.map f).set i (f v) := by
  intro l
  induction l with
  | nil => intro i v; simp
  | cons x t ih =>
    intro i v
    cases i with
    | zero => simp
    | succ j => simp [ih j v]

theorem scatter_scale (k : ℚ) :
    ∀ (pos : List ℕ) (ret vals : List ℚ),
      scatter (ret.map (fun x => k * x)) pos (vals.map (fun x => k * x)) =
        (scatter ret pos vals).map (fun x => k * x) := by
  intro pos
  induction pos with
  | nil => intro ret vals; rfl
  | cons p t ih =>
    intro ret vals
    cases vals with
    | nil => rfl
    | cons v u =>
      simp only [scatter, List.map_cons, List.zip_cons_cons, List.foldl_cons]
      have h := ih (ret.set p v) u
      simp only [scatter] at h
      rw [← set_map_comm (fun x => k * x) ret p v]
      exact h

theorem zipWith_add_map_scale (k : ℚ) :
    ∀ (a b : List ℚ),
      List.zipWith (· + ·) (a.map (fun x => k * x)) (b.map (fun x => k * x)) =
        (List.zipWith (· + ·) a b).map (fun x => k * x) := by
  intro a
  induction a with
  | nil => intro b; simp
  | cons x t ih =>
    intro b
    cases b with
    | nil => simp
    | cons y u =>
      simp only [List.map_cons, List.zipWith_cons_cons, ih u, mul_add]

theorem map_scale_comm (k a : ℚ) (l : List ℚ) :
    l.map (fun x => k * a * x) = (l.map (fun x => a * x)).map (fun x => k * x) := by
  rw [List.map_map]
  exact List.map_congr_left (fun x _ => by show k * a * x = k * (a * x); ring)

theorem maskList_map {α β : Type} (f : α → β) :
    ∀ (mask : List Bool) (xs : List α),
      maskList mask (xs.map f) = (maskList mask xs).map f := by
  intro mask
  induction mask with
  | nil => intro xs; rfl
  | cons b t ih =>
    intro xs
    cases xs with
    | nil => rfl
    | cons x u =>
      cases b <;> simp [maskList, List.filterMap_cons] <;>
        simpa [maskList] using ih u

theorem slice_map {α β : Type} (f : α → β) (l : List α) (i j : ℕ) :
    slice (l.map f) i j = (slice l i j).map f := by
  simp [slice, List.map_take, List.map_drop]

theorem weighted_row_sum_fold_scale (k : ℚ) :
    ∀ (w : List ℚ) (A : Mat) (acc : List ℚ),
      ((w.map (fun x => k * x)).zip A).foldl
          (fun acc p => List.zipWith (· + ·) acc (p.2.map (fun x => p.1 * x)))
          (acc.map (fun x => k * x)) =
        ((w.zip A).foldl
          (fun acc p => List.zipWith (· + ·) acc (p.2.map (fun x => p.1 * x)))
          acc).map (fun x => k * x) := by
  intro w
  induction w with
  | nil => intro A acc; simp
  | cons w0 t ih =>
    intro A acc
    cases A with
    | nil => simp
    | cons row B =>
      simp only [List.map_cons, List.zip_cons_cons, List.foldl_cons]
      rw [map_scale_comm k w0 row,
        zipWith_add_map_scale k acc (row.map (fun x => w0 * x))]
      exact ih B _

theorem weighted_row_sum_scale (k : ℚ) (n : ℕ) (w : List ℚ) (A : Mat) :
    ThermalSourceModel.weighted_row_sum n (w.map (fun x => k * x)) A =
      (ThermalSourceModel.weighted_row_sum n w A).map (fun x => k * x) := by
  have h0 : (List.replicate n (0 : ℚ)).map (fun x => k * x) =
      List.replicate n (0 : ℚ) := by
    simp [List.map_replicate]
  simp only [ThermalSourceModel.weighted_row_sum]
  conv_lhs => rw [← h0]
  exact weighted_row_sum_fold_scale k w A (List.replicate n 0)

theorem alphas_emission_scale (k : ℚ) (m : PowerLawSourceModelState)
    (c : PLChunk) :
    PowerLawSourceModel.alphas m
        { c with emission := c.emission.map (fun x => k * x) } =
      PowerLawSourceModel.alphas m c := by
  cases h : m.alpha with
  | none => simp [PowerLawSourceModel.alphas, h]
  | some a => simp [PowerLawSourceModel.alphas, h]

theorem norm_emission_scale (k : ℚ) (ops : FloatOps)
    (m : PowerLawSourceModelState) (a em : ℚ) :
    PowerLawSourceModel.norm ops m a (k * em) =
      k * PowerLawSourceModel.norm ops m a em := by
  simp only [PowerLawSourceModel.norm]
  by_cases h : a = 1
  · rw [if_pos h, if_pos h]; ring
  · rw [if_neg h, if_neg h,
      show PowerLawSourceModel.norm_fac ops m a * (k * em) =
        k * (PowerLawSourceModel.norm_fac ops m a * em) from by ring,
      mul_div_assoc]

theorem efs_emission_scale (k : ℚ) (ops : FloatOps)
    (m : PowerLawSourceModelState) (a em : ℚ) :
    PowerLawSourceModel.energy_field_sample ops m a (k * em) =
      k * PowerLawSourceModel.energy_field_sample ops m a em := by
  simp only [PowerLawSourceModel.energy_field_sample]
  ring

theorem pl_lam_scale (k : ℚ) (ops : FloatOps) (m : PowerLawSourceModelState)
    (c : PLChunk) :
    PowerLawSourceModel.pl_lam ops m
        { c with emission := c.emission.map (fun x => k * x) } =
      (PowerLawSourceModel.pl_lam ops m c).map (fun x => k * x) := by
  simp only [PowerLawSourceModel.pl_lam, alphas_emission_scale]
  rw [zipWith_map_right_scale k _ (fun a b => norm_emission_scale k ops m a b),
    List.map_map, List.map_map]
  exact List.map_congr_left (fun x _ => by
    show k * x * m.spectral_norm * m.scale_factor =
      k * (x * m.spectral_norm * m.scale_factor)
    ring)

theorem line_lam_scale (k : ℚ) (m : LineSourceModelState) (c : LineChunk) :
    LineSourceModel.line_lam m
        { c with emission := c.emission.map (fun x => k * x) } =
      (LineSourceModel.line_lam m c).map (fun x => k * x) := by
  simp only [LineSourceModel.line_lam]
  rw [List.map_map, List.map_map]
  exact List.map_congr_left (fun x _ => by
    show k * x * m.spectral_norm * m.scale_factor =
      k * (x * m.spectral_norm * m.scale_factor)
    ring)

theorem line_fold_scale (k : ℚ) (g : ℚ → List ℚ) :
    ∀ (sg em spec : List ℚ),
      ((sg.zip (em.map (fun x => k * x))).foldl
          (fun spec p => List.zipWith (· + ·) spec
            ((g p.1).map (fun d => p.2 * d)))
          (spec.map (fun x => k * x))) =
        ((sg.zip em).foldl
          (fun spec p => List.zipWith (· + ·) spec
            ((g p.1).map (fun d => p.2 * d)))
          spec).map (fun x => k * x) := by
  intro sg
  induction sg with
  | nil => intro em spec; simp
  | cons s0 t ih =>
    intro em spec
    cases em with
    | nil => simp
    | cons e0 u =>
      simp only [List.map_cons, List.zip_cons_cons, List.foldl_cons]
      rw [map_scale_comm k e0 (g s0),
        zipWith_add_map_scale k spec ((g s0).map (fun d => e0 * d))]
      exact ih u _

theorem line_spectrum_scale (k : ℚ) (m : LineSourceModelState) (c : LineChunk)
    (ebins : List ℚ) :
    LineSourceModel.line_spectrum m
        { c with emission := c.emission.map (fun x => k * x) } ebins =
      (LineSourceModel.line_spectrum m c ebins).map (fun x => k * x) := by
  simp only [LineSourceModel.line_spectrum]
  cases hs : m.sigma with
  | constSigma v =>
    dsimp only
    rw [sum_map_scale, List.map_map, List.map_map]
    exact List.map_congr_left (fun d _ => by
      show k * c.emission.sum * d = k * (c.emission.sum * d); ring)
  | noSigma =>
    dsimp only
    rw [sum_map_scale, set_map_comm (fun x => k * x), List.map_replicate,
      mul_zero]
  | fieldSigma =>
    dsimp only
    have hsk : LineSourceModel.sigma_keV m
        { c with emission := c.emission.map (fun x => k * x) } =
        LineSourceModel.sigma_keV m c := rfl
    rw [hsk]
    have h0 : (List.replicate (ebins.length - 1) (0 : ℚ)).map
        (fun x => k * x) = List.replicate (ebins.length - 1) (0 : ℚ) := by
      simp [List.map_replicate]
    conv_lhs => rw [← h0]
    exact line_fold_scale k
      (fun v => List.zipWith (· - ·)
        (((ebins.map (fun e => e - m.e0)).map
          (fun d => interp (d / v) m.gx m.gcdf)).drop 1)
        ((ebins.map (fun e => e - m.e0)).map
          (fun d => interp (d / v) m.gx m.gcdf)))
      (LineSourceModel.sigma_keV m c) c.emission
      (List.replicate (ebins.length - 1) 0)

theorem cell_nrm_scale (k : ℚ) (m : ThermalSourceModelState) (c : ThermalChunk)
    (cut : List Bool) :
    ThermalSourceModel.cell_nrm m
        { c with emission_measure := c.emission_measure.map (fun x => k * x) }
        cut =
      (ThermalSourceModel.cell_nrm m c cut).map (fun x => k * x) := by
  simp only [ThermalSourceModel.cell_nrm]
  rw [maskList_map (fun x => k * x) cut c.emission_measure]
  have hbase : ((maskList cut c.emission_measure).map (fun x => k * x)).map
      (fun em => em * m.spectral_norm) =
      ((maskList cut c.emission_measure).map
        (fun em => em * m.spectral_norm)).map (fun x => k * x) := by
    rw [List.map_map, List.map_map]
    exact List.map_congr_left (fun x _ => by
      show k * x * m.spectral_norm = k * (x * m.spectral_norm); ring)
  rw [hbase]
  by_cases hb : m.nh_field && m.fix_norm
  · rw [if_pos hb, if_pos hb,
      zipWith_map_left_scale k _ (fun a b => mul_div_assoc k a b)]
  · rw [if_neg hb, if_neg hb]

theorem cut_mask_emission_scale (k : ℚ) (m : ThermalSourceModelState)
    (c : ThermalChunk) :
    ThermalSourceModel.cut_mask m
        { c with emission_measure := c.emission_measure.map (fun x => k * x) } =
      ThermalSourceModel.cut_mask m c := rfl

theorem batch_means_scale (k : ℚ) (m : ThermalSourceModelState)
    (kTm : List ℚ) (nHm : Option (List ℚ)) (cnrm mz : List ℚ)
    (ez : List (List ℚ)) (rg : ℕ × ℕ) :
    ThermalSourceModel.batch_means m kTm nHm (cnrm.map (fun x => k * x))
        mz ez rg =
      (ThermalSourceModel.batch_means m kTm nHm cnrm mz ez rg).map
        (fun x => k * x) := by
  simp only [ThermalSourceModel.batch_means]
  rw [slice_map (fun x => k * x) cnrm rg.1 rg.2,
    zipWith_map_right_scale k _ (fun a b => by ring)]

theorem process_batch_photons_means {σ : Type} (ops : FloatOps)
    (m : ThermalSourceModelState) (rs : RandomSource σ) (kTm : List ℚ)
    (nHm : Option (List ℚ)) (cnrm mz : List ℚ) (ez : List (List ℚ))
    (idxs : List ℕ) (st : ThermalSourceModel.LoopState σ) (rg : ℕ × ℕ) :
    (ThermalSourceModel.process_batch ops m rs .photons kTm nHm cnrm mz ez
        idxs st rg).counts =
      setSlice st.counts rg.1
        (drawList (fun s lam => rs.poisson s lam) st.s
          (ThermalSourceModel.batch_means m kTm nHm cnrm mz ez rg)).1 := rfl

theorem fold_pf_scale {σ : Type} (k : ℚ) (ops : FloatOps)
    (m : ThermalSourceModelState) (rs : RandomSource σ) (kTm : List ℚ)
    (nHm : Option (List ℚ)) (cnrm mz : List ℚ) (ez : List (List ℚ))
    (idxs : List ℕ) :
    ∀ (L : List (ℕ × ℕ)) (st1 st2 : ThermalSourceModel.LoopState σ),
      st2.ret = st1.ret.map (fun x => k * x) → st2.s = st1.s →
      (L.foldl (ThermalSourceModel.process_batch ops m rs .photon_field kTm
        nHm (cnrm.map (fun x => k * x)) mz ez idxs) st2).ret =
        ((L.foldl (ThermalSourceModel.process_batch ops m rs .photon_field kTm
          nHm cnrm mz ez idxs) st1).ret).map (fun x => k * x) ∧
      (L.foldl (ThermalSourceModel.process_batch ops m rs .photon_field kTm
        nHm (cnrm.map (fun x => k * x)) mz ez idxs) st2).s =
        (L.foldl (ThermalSourceModel.process_batch ops m rs .photon_field kTm
          nHm cnrm mz ez idxs) st1).s := by
  intro L
  induction L with
  | nil => intro st1 st2 h1 h2; exact ⟨h1, h2⟩
  | cons rg t ih =>
    intro st1 st2 h1 h2
    simp only [List.foldl_cons]
    refine ih _ _ ?_ ?_
    · simp only [ThermalSourceModel.process_batch]
      rw [slice_map (fun x => k * x) cnrm rg.1 rg.2,
        zipWith_map_right_scale k _ (fun a b => by ring), h1,
        scatter_scale]
    · simp only [ThermalSourceModel.process_batch]
      exact h2

theorem fold_ef_scale {σ : Type} (k : ℚ) (ops : FloatOps)
    (m : ThermalSourceModelState) (rs : RandomSource σ) (kTm : List ℚ)
    (nHm : Option (List ℚ)) (cnrm mz : List ℚ) (ez : List (List ℚ))
    (idxs : List ℕ) :
    ∀ (L : List (ℕ × ℕ)) (st1 st2 : ThermalSourceModel.LoopState σ),
      st2.ret = st1.ret.map (fun x => k * x) → st2.s = st1.s →
      (L.foldl (ThermalSourceModel.process_batch ops m rs .energy_field kTm
        nHm (cnrm.map (fun x => k * x)) mz ez idxs) st2).ret =
        ((L.foldl (ThermalSourceModel.process_batch ops m rs .energy_field kTm
          nHm cnrm mz ez idxs) st1).ret).map (fun x => k * x) ∧
      (L.foldl (ThermalSourceModel.process_batch ops m rs .energy_field kTm
        nHm (cnrm.map (fun x => k * x)) mz ez idxs) st2).s =
        (L.foldl (ThermalSourceModel.process_batch ops m rs .energy_field kTm
          nHm cnrm mz ez idxs) st1).s := by
  intro L
  induction L with
  | nil => intro st1 st2 h1 h2; exact ⟨h1, h2⟩
  | cons rg t ih =>
    intro st1 st2 h1 h2
    simp only [List.foldl_cons]
    refine ih _ _ ?_ ?_
    · simp only [ThermalSourceModel.process_batch]
      rw [slice_map (fun x => k * x) cnrm rg.1 rg.2,
        zipWith_map_right_scale k _ (fun a b => by ring), h1,
        scatter_scale]
    · simp only [ThermalSourceModel.process_batch]
      exact h2

theorem fold_sp_scale {σ : Type} (k : ℚ) (ops : FloatOps)
    (m : ThermalSourceModelState) (rs : RandomSource σ) (kTm : List ℚ)
    (nHm : Option (List ℚ)) (cnrm mz : List ℚ) (ez : List (List ℚ))
    (idxs : List ℕ) :
    ∀ (L : List (ℕ × ℕ)) (st1 st2 : ThermalSourceModel.LoopState σ),
      st2.spec = st1.spec.map (fun x => k * x) → st2.s = st1.s →
      (L.foldl (ThermalSourceModel.process_batch ops m rs .spectrum kTm
        nHm (cnrm.map (fun x => k * x)) mz ez idxs) st2).spec =
        ((L.foldl (ThermalSourceModel.process_batch ops m rs .spectrum kTm
          nHm cnrm mz ez idxs) st1).spec).map (fun x => k * x) ∧
      (L.foldl (ThermalSourceModel.process_batch ops m rs .spectrum kTm
        nHm (cnrm.map (fun x => k * x)) mz ez idxs) st2).s =
        (L.foldl (ThermalSourceModel.process_batch ops m rs .spectrum kTm
          nHm cnrm mz ez idxs) st1).s := by
  intro L
  induction L with
  | nil => intro st1 st2 h1 h2; exact ⟨h1, h2⟩
  | cons rg t ih =>
    intro st1 st2 h1 h2
    simp only [List.foldl_cons]
    refine ih _ _ ?_ ?_
    · simp only [ThermalSourceModel.process_batch]
      rw [slice_map (fun x => k * x) cnrm rg.1 rg.2,
        weighted_row_sum_scale, h1, zipWith_add_map_scale]
    · simp only [ThermalSourceModel.process_batch]
      exact h2

theorem thermal_pf_scale {σ : Type} (k : ℚ) (cap0 : ℕ) (ops : FloatOps)
    (m : ThermalSourceModelState) (rs : RandomSource σ) (c : ThermalChunk)
    (s : σ) :
    ∀ (vals : List ℚ) (s' : σ),
      ThermalSourceModel.process_data_cap cap0 ops m rs .photon_field c s =
        (some (.arr vals), s') →
      ThermalSourceModel.process_data_cap cap0 ops m rs .photon_field
          { c with emission_measure := c.emission_measure.map (fun x => k * x) }
          s =
        (some (.arr (vals.map (fun x => k * x))), s') := by
  intro vals s' h
  simp only [ThermalSourceModel.process_data_cap] at h ⊢
  rw [cut_mask_emission_scale k m c]
  rw [show ThermalSourceModel.metalZ m
      { c with emission_measure := c.emission_measure.map (fun x => k * x) }
      (ThermalSourceModel.cut_mask m c) =
      ThermalSourceModel.metalZ m c (ThermalSourceModel.cut_mask m c)
    from rfl]
  rw [show ThermalSourceModel.elemZ m
      { c with emission_measure := c.emission_measure.map (fun x => k * x) }
      (ThermalSourceModel.cut_mask m c) =
      ThermalSourceModel.elemZ m c (ThermalSourceModel.cut_mask m c)
    from rfl]
  rw [cell_nrm_scale k m c (ThermalSourceModel.cut_mask m c)]
  by_cases h0 : c.temperature.length = 0
  · rw [if_pos h0] at h ⊢
    rw [if_neg (by decide : ¬(Mode.photon_field = Mode.photons))] at h ⊢
    simp only [Prod.mk.injEq, Option.some.injEq, TResult.arr.injEq] at h
    obtain ⟨hv, hs⟩ := h
    rw [← hv, ← hs]
    simp
  · rw [if_neg h0] at h ⊢
    by_cases h1 : (ThermalSourceModel.cut_mask m c).count true = 0
    · rw [if_pos h1] at h ⊢
      rw [if_neg (by decide : ¬(Mode.photon_field = Mode.photons))] at h ⊢
      simp only [Prod.mk.injEq, Option.some.injEq, TResult.arr.injEq] at h
      obtain ⟨hv, hs⟩ := h
      rw [← hv, ← hs]
      simp [List.map_replicate]
    · rw [if_neg h1] at h ⊢
      obtain ⟨hret, hs⟩ := fold_pf_scale k ops m rs
        (maskList (ThermalSourceModel.cut_mask m c) c.temperature)
        (if m.nh_field then some (maskList (ThermalSourceModel.cut_mask m c) c.nH)
          else none)
        (ThermalSourceModel.cell_nrm m c (ThermalSourceModel.cut_mask m c))
        (ThermalSourceModel.metalZ m c (ThermalSourceModel.cut_mask m c))
        (ThermalSourceModel.elemZ m c (ThermalSourceModel.cut_mask m c))
        (trueIdxs (ThermalSourceModel.cut_mask m c))
        (chunkedRanges 0 ((ThermalSourceModel.cut_mask m c).count true))
        ⟨List.replicate ((ThermalSourceModel.cut_mask m c).count true) 0,
          List.replicate cap0 0, 0, List.replicate c.temperature.length 0,
          List.replicate m.nchan 0, s⟩
        ⟨List.replicate ((ThermalSourceModel.cut_mask m c).count true) 0,
          List.replicate cap0 0, 0, List.replicate c.temperature.length 0,
          List.replicate m.nchan 0, s⟩
        (by dsimp only; rw [List.map_replicate, mul_zero]) rfl
      rw [hret, hs]
      simp only [Prod.mk.injEq, Option.some.injEq, TResult.arr.injEq] at h
      obtain ⟨hv, hs2⟩ := h
      rw [hv, hs2]

theorem thermal_ef_scale {σ : Type} (k : ℚ) (cap0 : ℕ) (ops : FloatOps)
    (m : ThermalSourceModelState) (rs : RandomSource σ) (c : ThermalChunk)
    (s : σ) :
    ∀ (vals : List ℚ) (s' : σ),
      ThermalSourceModel.process_data_cap cap0 ops m rs .energy_field c s =
        (some (.arr vals), s') →
      ThermalSourceModel.process_data_cap cap0 ops m rs .energy_field
          { c with emission_measure := c.emission_measure.map (fun x => k * x) }
          s =
        (some (.arr (vals.map (fun x => k * x))), s') := by
  intro vals s' h
  simp only [ThermalSourceModel.process_data_cap] at h ⊢
  rw [cut_mask_emission_scale k m c]
  rw [show ThermalSourceModel.metalZ m
      { c with emission_measure := c.emission_measure.map (fun x => k * x) }
      (ThermalSourceModel.cut_mask m c) =
      ThermalSourceModel.metalZ m c (ThermalSourceModel.cut_mask m c)
    from rfl]
  rw [show ThermalSourceModel.elemZ m
      { c with emission_measure := c.emission_measure.map (fun x => k * x) }
      (ThermalSourceModel.cut_mask m c) =
      ThermalSourceModel.elemZ m c (ThermalSourceModel.cut_mask m c)
    from rfl]
  rw [cell_nrm_scale k m c (ThermalSourceModel.cut_mask m c)]
  by_cases h0 : c.temperature.length = 0
  · rw [if_pos h0] at h ⊢
    rw [if_neg (by decide : ¬(Mode.energy_field = Mode.photons))] at h ⊢
    simp only [Prod.mk.injEq, Option.some.injEq, TResult.arr.injEq] at h
    obtain ⟨hv, hs⟩ := h
    rw [← hv, ← hs]
    simp
  · rw [if_neg h0] at h ⊢
    by_cases h1 : (ThermalSourceModel.cut_mask m c).count true = 0
    · rw [if_pos h1] at h ⊢
      rw [if_neg (by decide : ¬(Mode.energy_field = Mode.photons))] at h ⊢
      simp only [Prod.mk.injEq, Option.some.injEq, TResult.arr.injEq] at h
      obtain ⟨hv, hs⟩ := h
      rw [← hv, ← hs]
      simp [List.map_replicate]
    · rw [if_neg h1] at h ⊢
      obtain ⟨hret, hs⟩ := fold_ef_scale k ops m rs
        (maskList (ThermalSourceModel.cut_mask m c) c.temperature)
        (if m.nh_field then some (maskList (ThermalSourceModel.cut_mask m c) c.nH)
          else none)
        (ThermalSourceModel.cell_nrm m c (ThermalSourceModel.cut_mask m c))
        (ThermalSourceModel.metalZ m c (ThermalSourceModel.cut_mask m c))
        (ThermalSourceModel.elemZ m c (ThermalSourceModel.cut_mask m c))
        (trueIdxs (ThermalSourceModel.cut_mask m c))
        (chunkedRanges 0 ((ThermalSourceModel.cut_mask m c).count true))
        ⟨List.replicate ((ThermalSourceModel.cut_mask m c).count true) 0,
          List.replicate cap0 0, 0, List.replicate c.temperature.length 0,
          List.replicate m.nchan 0, s⟩
        ⟨List.replicate ((ThermalSourceModel.cut_mask m c).count true) 0,
          List.replicate cap0 0, 0, List.replicate c.temperature.length 0,
          List.replicate m.nchan 0, s⟩
        (by dsimp only; rw [List.map_replicate, mul_zero]) rfl
      rw [hret, hs]
      simp only [Prod.mk.injEq, Option.some.injEq, TResult.arr.injEq] at h
      obtain ⟨hv, hs2⟩ := h
      rw [hv, hs2]


theorem thermal_sp_scale {σ : Type} (k : ℚ) (cap0 : ℕ) (ops : FloatOps)
    (m : ThermalSourceModelState) (rs : RandomSource σ) (c : ThermalChunk)
    (s : σ) :
    ∀ (vals : List ℚ) (s' : σ),
      ThermalSourceModel.process_data_cap cap0 ops m rs .spectrum c s =
        (some (.arr vals), s') →
      ThermalSourceModel.process_data_cap cap0 ops m rs .spectrum
          { c with emission_measure := c.emission_measure.map (fun x => k * x) }
          s =
        (some (.arr (vals.map (fun x => k * x))), s') := by
  intro vals s' h
  simp only [ThermalSourceModel.process_data_cap] at h ⊢
  rw [cut_mask_emission_scale k m c]
  rw [show ThermalSourceModel.metalZ m
      { c with emission_measure := c.emission_measure.map (fun x => k * x) }
      (ThermalSourceModel.cut_mask m c) =
      ThermalSourceModel.metalZ m c (ThermalSourceModel.cut_mask m c)
    from rfl]
  rw [show ThermalSourceModel.elemZ m
      { c with emission_measure := c.emission_measure.map (fun x => k * x) }
      (ThermalSourceModel.cut_mask m c) =
      ThermalSourceModel.elemZ m c (ThermalSourceModel.cut_mask m c)
    from rfl]
  rw [cell_nrm_scale k m c (ThermalSourceModel.cut_mask m c)]
  by_cases h0 : c.temperature.length = 0
  · rw [if_pos h0] at h ⊢
    rw [if_neg (by decide : ¬(Mode.spectrum = Mode.photons))] at h ⊢
    simp only [Prod.mk.injEq, Option.some.injEq, TResult.arr.injEq] at h
    obtain ⟨hv, hs⟩ := h
    rw [← hv, ← hs]
    simp
  · rw [if_neg h0] at h ⊢
    by_cases h1 : (ThermalSourceModel.cut_mask m c).count true = 0
    · rw [if_pos h1] at h ⊢
      rw [if_neg (by decide : ¬(Mode.spectrum = Mode.photons))] at h ⊢
      simp only [Prod.mk.injEq, Option.some.injEq, TResult.arr.injEq] at h
      obtain ⟨hv, hs⟩ := h
      rw [← hv, ← hs]
      simp [List.map_replicate]
    · rw [if_neg h1] at h ⊢
      obtain ⟨hret, hs⟩ := fold_sp_scale k ops m rs
        (maskList (ThermalSourceModel.cut_mask m c) c.temperature)
        (if m.nh_field then some (maskList (ThermalSourceModel.cut_mask m c) c.nH)
          else none)
        (ThermalSourceModel.cell_nrm m c (ThermalSourceModel.cut_mask m c))
        (ThermalSourceModel.metalZ m c (ThermalSourceModel.cut_mask m c))
        (ThermalSourceModel.elemZ m c (ThermalSourceModel.cut_mask m c))
        (trueIdxs (ThermalSourceModel.cut_mask m c))
        (chunkedRanges 0 ((ThermalSourceModel.cut_mask m c).count true))
        ⟨List.replicate ((ThermalSourceModel.cut_mask m c).count true) 0,
          List.replicate cap0 0, 0, List.replicate c.temperature.length 0,
          List.replicate m.nchan 0, s⟩
        ⟨List.replicate ((ThermalSourceModel.cut_mask m c).count true) 0,
          List.replicate cap0 0, 0, List.replicate c.temperature.length 0,
          List.replicate m.nchan 0, s⟩
        (by dsimp only; rw [List.map_replicate, mul_zero]) rfl
      rw [hret, hs]
      simp only [Prod.mk.injEq, Option.some.injEq, TResult.arr.injEq] at h
      obtain ⟨hv, hs2⟩ := h
      rw [hv, hs2]

theorem pl_pf_scale {σ : Type} (k : ℚ) (ops : FloatOps)
    (m : PowerLawSourceModelState) (rs : RandomSource σ) (c : PLChunk)
    (emid : List ℚ) (s : σ) :
    ∀ (vals : List ℚ) (s' : σ),
      PowerLawSourceModel.process_data ops m rs .photon_field c emid s =
        (some (.arr vals), s') →
      PowerLawSourceModel.process_data ops m rs .photon_field
          { c with emission := c.emission.map (fun x => k * x) } emid s =
        (some (.arr (vals.map (fun x => k * x))), s') := by
  intro vals s' h
  simp only [PowerLawSourceModel.process_data] at h ⊢
  rw [alphas_emission_scale k m c,
    zipWith_map_right_scale k _ (fun a b => norm_emission_scale k ops m a b)]
  simp only [Prod.mk.injEq, Option.some.injEq, PLResult.arr.injEq] at h
  obtain ⟨hv, hs⟩ := h
  rw [hv, hs]

theorem pl_ef_scale {σ : Type} (k : ℚ) (ops : FloatOps)
    (m : PowerLawSourceModelState) (rs : RandomSource σ) (c : PLChunk)
    (emid : List ℚ) (s : σ) :
    ∀ (vals : List ℚ) (s' : σ),
      PowerLawSourceModel.process_data ops m rs .energy_field c emid s =
        (some (.arr vals), s') →
      PowerLawSourceModel.process_data ops m rs .energy_field
          { c with emission := c.emission.map (fun x => k * x) } emid s =
        (some (.arr (vals.map (fun x => k * x))), s') := by
  intro vals s' h
  simp only [PowerLawSourceModel.process_data] at h ⊢
  rw [alphas_emission_scale k m c,
    zipWith_map_right_scale k _ (fun a b => efs_emission_scale k ops m a b)]
  simp only [Prod.mk.injEq, Option.some.injEq, PLResult.arr.injEq] at h
  obtain ⟨hv, hs⟩ := h
  rw [hv, hs]

theorem pl_sp_scale {σ : Type} (k : ℚ) (ops : FloatOps)
    (m : PowerLawSourceModelState) (rs : RandomSource σ) (c : PLChunk)
    (emid : List ℚ) (s : σ) :
    ∀ (vals : List ℚ) (s' : σ),
      PowerLawSourceModel.process_data ops m rs .spectrum c emid s =
        (some (.arr vals), s') →
      PowerLawSourceModel.process_data ops m rs .spectrum
          { c with emission := c.emission.map (fun x => k * x) } emid s =
        (some (.arr (vals.map (fun x => k * x))), s') := by
  intro vals s' h
  simp only [PowerLawSourceModel.process_data] at h ⊢
  rw [alphas_emission_scale k m c]
  simp only [sum_map_scale]
  by_cases hA : (PowerLawSourceModel.alphas m c).length = emid.length
  · rw [if_pos hA] at h ⊢
    rw [zipWith_scale_fun k
      (fun e a => c.emission.sum * ops.rpow (e / m.e0) (-a))
      (fun e a => k * c.emission.sum * ops.rpow (e / m.e0) (-a))
      (fun a b => by ring) emid (PowerLawSourceModel.alphas m c)]
    simp only [Prod.mk.injEq, Option.some.injEq, PLResult.arr.injEq] at h
    obtain ⟨hv, hs⟩ := h
    rw [hv, hs]
  · rw [if_neg hA] at h ⊢
    by_cases hB : (PowerLawSourceModel.alphas m c).length = 1
    · rw [if_pos hB] at h ⊢
      rw [map_scale_fun k
        (fun e => c.emission.sum *
          ops.rpow (e / m.e0) (-(PowerLawSourceModel.alphas m c).getD 0 0))
        (fun e => k * c.emission.sum *
          ops.rpow (e / m.e0) (-(PowerLawSourceModel.alphas m c).getD 0 0))
        (fun a => by ring) emid]
      simp only [Prod.mk.injEq, Option.some.injEq, PLResult.arr.injEq] at h
      obtain ⟨hv, hs⟩ := h
      rw [hv, hs]
    · rw [if_neg hB] at h ⊢
      by_cases hC : emid.length = 1
      · rw [if_pos hC] at h ⊢
        rw [map_scale_fun k
          (fun a => c.emission.sum * ops.rpow (emid.getD 0 0 / m.e0) (-a))
          (fun a => k * c.emission.sum * ops.rpow (emid.getD 0 0 / m.e0) (-a))
          (fun a => by ring) (PowerLawSourceModel.alphas m c)]
        simp only [Prod.mk.injEq, Option.some.injEq, PLResult.arr.injEq] at h
        obtain ⟨hv, hs⟩ := h
        rw [hv, hs]
      · rw [if_neg hC] at h ⊢
        exact absurd h (by simp)

theorem line_pf_scale {σ : Type} (k : ℚ) (m : LineSourceModelState)
    (rs : RandomSource σ) (c : LineChunk) (ebins : List ℚ) (s : σ) :
    ∀ (vals : List ℚ) (s' : σ),
      LineSourceModel.process_data m rs .photon_field c ebins s =
        (some (.arr vals), s') →
      LineSourceModel.process_data m rs .photon_field
          { c with emission := c.emission.map (fun x => k * x) } ebins s =
        (some (.arr (vals.map (fun x => k * x))), s') := by
  intro vals s' h
  simp only [LineSourceModel.process_data] at h ⊢
  simp only [Prod.mk.injEq, Option.some.injEq, PLResult.arr.injEq] at h
  obtain ⟨hv, hs⟩ := h
  rw [hv, hs]

theorem line_ef_scale {σ : Type} (k : ℚ) (m : LineSourceModelState)
    (rs : RandomSource σ) (c : LineChunk) (ebins : List ℚ) (s : σ) :
    ∀ (vals : List ℚ) (s' : σ),
      LineSourceModel.process_data m rs .energy_field c ebins s =
        (some (.arr vals), s') →
      LineSourceModel.process_data m rs .energy_field
          { c with emission := c.emission.map (fun x => k * x) } ebins s =
        (some (.arr (vals.map (fun x => k * x))), s') := by
  intro vals s' h
  simp only [LineSourceModel.process_data] at h ⊢
  have hm : (c.emission.map (fun x => k * x)).map (fun em => m.e0 * em) =
      (c.emission.map (fun em => m.e0 * em)).map (fun x => k * x) := by
    rw [List.map_map, List.map_map]
    exact List.map_congr_left (fun x _ => by
      show m.e0 * (k * x) = k * (m.e0 * x); ring)
  rw [hm]
  simp only [Prod.mk.injEq, Option.some.injEq, PLResult.arr.injEq] at h
  obtain ⟨hv, hs⟩ := h
  rw [hv, hs]

theorem line_sp_scale {σ : Type} (k : ℚ) (m : LineSourceModelState)
    (rs : RandomSource σ) (c : LineChunk) (ebins : List ℚ) (s : σ) :
    ∀ (vals : List ℚ) (s' : σ),
      LineSourceModel.process_data m rs .spectrum c ebins s =
        (some (.arr vals), s') →
      LineSourceModel.process_data m rs .spectrum
          { c with emission := c.emission.map (fun x => k * x) } ebins s =
        (some (.arr (vals.map (fun x => k * x))), s') := by
  intro vals s' h
  simp only [LineSourceModel.process_data] at h ⊢
  rw [line_spectrum_scale k m c ebins]
  simp only [Prod.mk.injEq, Option.some.injEq, PLResult.arr.injEq] at h
  obtain ⟨hv, hs⟩ := h
  rw [hv, hs]

/-- C5: multiplying every sample's emission measure (thermal) or emission
field (power-law, line) by a constant `k > 0` leaves the thermal
eligibility mask unchanged and multiplies the per-sample norms by `k`,
multiplies every per-batch Poisson mean of the thermal photons mode
(`batch_means`, the argument of the Poisson draw in `process_batch`) by
`k`, multiplies the photons-mode Poisson means `pl_lam` / `line_lam` of
the power-law and line engines by `k`, and multiplies the `photon_field`,
`energy_field` and `spectrum` outputs of all three engines by exactly
`k`. -/
theorem emission_scaling {σ : Type} (k : ℚ) (cap0 : ℕ) (ops : FloatOps)
    (mt : ThermalSourceModelState) (mp : PowerLawSourceModelState)
    (ml : LineSourceModelState) (rs : RandomSource σ) (ct : ThermalChunk)
    (cp : PLChunk) (cl : LineChunk) (emid ebins : List ℚ) (s : σ)
    (_hk : 0 < k) :
    (ThermalSourceModel.cut_mask mt
        { ct with emission_measure := ct.emission_measure.map (fun x => k * x) } =
      ThermalSourceModel.cut_mask mt ct) ∧
    (∀ cut : List Bool,
      ThermalSourceModel.cell_nrm mt
          { ct with emission_measure := ct.emission_measure.map (fun x => k * x) }
          cut =
        (ThermalSourceModel.cell_nrm mt ct cut).map (fun x => k * x)) ∧
    (∀ (kTm : List ℚ) (nHm : Option (List ℚ)) (cnrm mz : List ℚ)
        (ez : List (List ℚ)) (rg : ℕ × ℕ),
      ThermalSourceModel.batch_means mt kTm nHm (cnrm.map (fun x => k * x))
          mz ez rg =
        (ThermalSourceModel.batch_means mt kTm nHm cnrm mz ez rg).map
          (fun x => k * x)) ∧
    (∀ (kTm : List ℚ) (nHm : Option (List ℚ)) (cnrm mz : List ℚ)
        (ez : List (List ℚ)) (idxs : List ℕ)
        (st : ThermalSourceModel.LoopState σ) (rg : ℕ × ℕ),
      (ThermalSourceModel.process_batch ops mt rs .photons kTm nHm cnrm mz ez
          idxs st rg).counts =
        setSlice st.counts rg.1
          (drawList (fun s lam => rs.poisson s lam) st.s
            (ThermalSourceModel.batch_means mt kTm nHm cnrm mz ez rg)).1) ∧
    (∀ (vals : List ℚ) (s' : σ),
      ThermalSourceModel.process_data_cap cap0 ops mt rs .photon_field ct s =
        (some (.arr vals), s') →
      ThermalSourceModel.process_data_cap cap0 ops mt rs .photon_field
          { ct with emission_measure := ct.emission_measure.map (fun x => k * x) }
          s =
        (some (.arr (vals.map (fun x => k * x))), s')) ∧
    (∀ (vals : List ℚ) (s' : σ),
      ThermalSourceModel.process_data_cap cap0 ops mt rs .energy_field ct s =
        (some (.arr vals), s') →
      ThermalSourceModel.process_data_cap cap0 ops mt rs .energy_field
          { ct with emission_measure := ct.emission_measure.map (fun x => k * x) }
          s =
        (some (.arr (vals.map (fun x => k * x))), s')) ∧
    (∀ (vals : List ℚ) (s' : σ),
      ThermalSourceModel.process_data_cap cap0 ops mt rs .spectrum ct s =
        (some (.arr vals), s') →
      ThermalSourceModel.process_data_cap cap0 ops mt rs .spectrum
          { ct with emission_measure := ct.emission_measure.map (fun x => k * x) }
          s =
        (some (.arr (vals.map (fun x => k * x))), s')) ∧
    (PowerLawSourceModel.pl_lam ops mp
        { cp with emission := cp.emission.map (fun x => k * x) } =
      (PowerLawSourceModel.pl_lam ops mp cp).map (fun x => k * x)) ∧
    (∀ (vals : List ℚ) (s' : σ),
      PowerLawSourceModel.process_data ops mp rs .photon_field cp emid s =
        (some (.arr vals), s') →
      PowerLawSourceModel.process_data ops mp rs .photon_field
          { cp with emission := cp.emission.map (fun x => k * x) } emid s =
        (some (.arr (vals.map (fun x => k * x))), s')) ∧
    (∀ (vals : List ℚ) (s' : σ),
      PowerLawSourceModel.process_data ops mp rs .energy_field cp emid s =
        (some (.arr vals), s') →
      PowerLawSourceModel.process_data ops mp rs .energy_field
          { cp with emission := cp.emission.map (fun x => k * x) } emid s =
        (some (.arr (vals.map (fun x => k * x))), s')) ∧
    (∀ (vals : List ℚ) (s' : σ),
      PowerLawSourceModel.process_data ops mp rs .spectrum cp emid s =
        (some (.arr vals), s') →
      PowerLawSourceModel.process_data ops mp rs .spectrum
          { cp with emission := cp.emission.map (fun x => k * x) } emid s =
        (some (.arr (vals.map (fun x => k * x))), s')) ∧
    (LineSourceModel.line_lam ml
        { cl with emission := cl.emission.map (fun x => k * x) } =
      (LineSourceModel.line_lam ml cl).map (fun x => k * x)) ∧
    (∀ (vals : List ℚ) (s' : σ),
      LineSourceModel.process_data ml rs .photon_field cl ebins s =
        (some (.arr vals), s') →
      LineSourceModel.process_data ml rs .photon_field
          { cl with emission := cl.emission.map (fun x => k * x) } ebins s =
        (some (.arr (vals.map (fun x => k * x))), s')) ∧
    (∀ (vals : List ℚ) (s' : σ),
      LineSourceModel.process_data ml rs .energy_field cl ebins s =
        (some (.arr vals), s') →
      LineSourceModel.process_data ml rs .energy_field
          { cl with emission := cl.emission.map (fun x => k * x) } ebins s =
        (some (.arr (vals.map (fun x => k * x))), s')) ∧
    (∀ (vals : List ℚ) (s' : σ),
      LineSourceModel.process_data ml rs .spectrum cl ebins s =
        (some (.arr vals), s') →
      LineSourceModel.process_data ml rs .spectrum
          { cl with emission := cl.emission.map (fun x => k * x) } ebins s =
        (some (.arr (vals.map (fun x => k * x))), s')) :=
  ⟨cut_mask_emission_scale k mt ct,
   fun cut => cell_nrm_scale k mt ct cut,
   fun kTm nHm cnrm mz ez rg => batch_means_scale k mt kTm nHm cnrm mz ez rg,
   fun kTm nHm cnrm mz ez idxs st rg =>
     process_batch_photons_means ops mt rs kTm nHm cnrm mz ez idxs st rg,
   thermal_pf_scale k cap0 ops mt rs ct s,
   thermal_ef_scale k cap0 ops mt rs ct s,
   thermal_sp_scale k cap0 ops mt rs ct s,
   pl_lam_scale k ops mp cp,
   pl_pf_scale k ops mp rs cp emid s,
   pl_ef_scale k ops mp rs cp emid s,
   pl_sp_scale k ops mp rs cp emid s,
   line_lam_scale k ml cl,
   line_pf_scale k ml rs cl ebins s,
   line_ef_scale k ml rs cl ebins s,
   line_sp_scale k ml rs cl ebins s⟩

section
attribute [local semireducible] Rat.mul Rat.add Rat.sub Rat.inv

/-- Witness for C5 at `k = 2` on the concrete models: the scaled thermal,
power-law and line chunks double every mask-invariant norm, every Poisson
mean and every deterministic-mode output. -/
theorem emission_scaling_witness :
    (ThermalSourceModel.cut_mask mThermal
        { cThermal with emission_measure :=
            cThermal.emission_measure.map (fun x => 2 * x) } =
      ThermalSourceModel.cut_mask mThermal cThermal) ∧
    (ThermalSourceModel.cell_nrm mThermal
        { cThermal with emission_measure :=
            cThermal.emission_measure.map (fun x => 2 * x) }
        (ThermalSourceModel.cut_mask mThermal cThermal) =
      (ThermalSourceModel.cell_nrm mThermal cThermal
        (ThermalSourceModel.cut_mask mThermal cThermal)).map (fun x => 2 * x)) ∧
    (ThermalSourceModel.batch_means mThermal [1] none
        (([1] : List ℚ).map (fun x => 2 * x)) [1] [] (0, 1) =
      (ThermalSourceModel.batch_means mThermal [1] none [1] [1] [] (0, 1)).map
        (fun x => 2 * x)) ∧
    ((ThermalSourceModel.process_batch opsId mThermal rsCount .photons [1]
        none [1] [1] [] [0] ⟨[0], [0], 0, [0], [0], 0⟩ (0, 1)).counts =
      setSlice ([0] : List ℕ) 0
        (drawList (fun s lam => rsCount.poisson s lam) 0
          (ThermalSourceModel.batch_means mThermal [1] none [1] [1] []
            (0, 1))).1) ∧
    (ThermalSourceModel.process_data_cap 4 opsId mThermal rsCount .photon_field
        { cThermal with emission_measure :=
            cThermal.emission_measure.map (fun x => 2 * x) } 0 =
      (some (.arr (([2, 20, 200] : List ℚ).map (fun x => 2 * x))), 0)) ∧
    (ThermalSourceModel.process_data_cap 4 opsId mThermal rsCount .energy_field
        { cThermal with emission_measure :=
            cThermal.emission_measure.map (fun x => 2 * x) } 0 =
      (some (.arr (([4, 40, 400] : List ℚ).map (fun x => 2 * x))), 0)) ∧
    (ThermalSourceModel.process_data_cap 4 opsId mThermal rsCount .spectrum
        { cThermal with emission_measure :=
            cThermal.emission_measure.map (fun x => 2 * x) } 0 =
      (some (.arr (([111, 111] : List ℚ).map (fun x => 2 * x))), 0)) ∧
    (PowerLawSourceModel.pl_lam opsId mPL
        { cPL with emission := cPL.emission.map (fun x => 2 * x) } =
      (PowerLawSourceModel.pl_lam opsId mPL cPL).map (fun x => 2 * x)) ∧
    (PowerLawSourceModel.process_data opsId mPL rsCount .photon_field
        { cPL with emission := cPL.emission.map (fun x => 2 * x) } [1, 2] 0 =
      (some (.arr (([2, 2] : List ℚ).map (fun x => 2 * x))), 0)) ∧
    (PowerLawSourceModel.process_data opsId mPL rsCount .energy_field
        { cPL with emission := cPL.emission.map (fun x => 2 * x) } [1, 2] 0 =
      (some (.arr (([1, 1] : List ℚ).map (fun x => 2 * x))), 0)) ∧
    (PowerLawSourceModel.process_data opsId mPL rsCount .spectrum
        { cPL with emission := cPL.emission.map (fun x => 2 * x) } [1, 2] 0 =
      (some (.arr (([-2, -4] : List ℚ).map (fun x => 2 * x))), 0)) ∧
    (LineSourceModel.line_lam mLine
        { cLine with emission := cLine.emission.map (fun x => 2 * x) } =
      (LineSourceModel.line_lam mLine cLine).map (fun x => 2 * x)) ∧
    (LineSourceModel.process_data mLine rsCount .photon_field
        { cLine with emission := cLine.emission.map (fun x => 2 * x) }
        [1, 2, 3] 0 =
      (some (.arr (([2, 5] : List ℚ).map (fun x => 2 * x))), 0)) ∧
    (LineSourceModel.process_data mLine rsCount .energy_field
        { cLine with emission := cLine.emission.map (fun x => 2 * x) }
        [1, 2, 3] 0 =
      (some (.arr (([6, 15] : List ℚ).map (fun x => 2 * x))), 0)) ∧
    (LineSourceModel.process_data mLine rsCount .spectrum
        { cLine with emission := cLine.emission.map (fun x => 2 * x) }
        [1, 2, 3] 0 =
      (some (.arr (([0, 0] : List ℚ).map (fun x => 2 * x))), 0)) := by
  obtain ⟨w1, w2, w3, w4, w5, w6, w7, w8, w9, w10, w11, w12, w13, w14, w15⟩ :=
    emission_scaling 2 4 opsId mThermal mPL mLine rsCount cThermal cPL cLine
      [1, 2] [1, 2, 3] 0 (by norm_num)
  exact ⟨w1, w2 (ThermalSourceModel.cut_mask mThermal cThermal),
    w3 [1] none [1] [1] [] (0, 1),
    w4 [1] none [1] [1] [] [0] ⟨[0], [0], 0, [0], [0], 0⟩ (0, 1),
    w5 [2, 20, 200] 0 rfl, w6 [4, 40, 400] 0 rfl, w7 [111, 111] 0 rfl,
    w8, w9 [2, 2] 0 rfl, w10 [1, 1] 0 rfl, w11 [-2, -4] 0 rfl,
    w12, w13 [2, 5] 0 rfl, w14 [6, 15] 0 rfl, w15 [0, 0] 0 rfl⟩

end

end PyXSIM
